import Mathlib

/- Formal verification development for the MetPath Studio translator core
   (backend/app/translator.py): translation of KGML and SBML pathway
   documents into one unified graph representation.

   Modelling conventions for the shallow embedding:
   - Python strings are Lean `String`.  The string primitives the source
     uses (`strip`, `split`, `replace`, `lower`, `upper`, `startswith`,
     substring membership) are implemented below by structural recursion
     over the character list of the string, so every definition evaluates
     inside the kernel.
   - Python floats are `Rat` (exact arithmetic; the source only adds,
     subtracts, multiplies, divides and takes min/max of them).
   - Python dicts are association lists: assignment to an existing key
     replaces the value in place (keeping the key's insertion position),
     assignment to a fresh key appends.
   - Python sets are deduplicated lists; membership is list membership.
   - Fallible code returns `Except`/`Option` instead of raising. -/

namespace MetPath

/-- Python truthiness of an optional string: `None` and `""` are falsy. -/
def truthy : Option String → Option String
  | some s => if s = "" then none else some s
  | none => none

/-- Python `a or b` on two strings (returns `b` when `a` is empty). -/
def pyOrS (a b : String) : String := if a = "" then b else a

/-- Python `str.strip()` on the character list: drop whitespace from both
ends. -/
def trimChars (s : List Char) : List Char :=
  ((s.dropWhile Char.isWhitespace).reverse.dropWhile Char.isWhitespace).reverse

/-- Python `str.strip()`. -/
def pyStrip (s : String) : String := String.mk (trimChars s.data)

/-- Python `str.lower()` (character-wise, as for the ASCII data the source
handles). -/
def pyLower (s : String) : String := String.mk (s.data.map Char.toLower)

/-- Python `str.upper()` (character-wise). -/
def pyUpper (s : String) : String := String.mk (s.data.map Char.toUpper)

/-- Python `s.startswith(pat)`. -/
def pyStarts (s pat : String) : Bool := pat.data.isPrefixOf s.data

/-- Accumulator-passing whitespace tokenizer (structural recursion). -/
def wsTokensAux : List Char → List Char → List (List Char)
  | acc, [] => if acc = [] then [] else [acc.reverse]
  | acc, c :: t =>
    if c.isWhitespace then
      if acc = [] then wsTokensAux [] t else acc.reverse :: wsTokensAux [] t
    else wsTokensAux (c :: acc) t

/-- Python `str.split()` with no argument: split on whitespace runs,
dropping empty tokens. -/
def pySplitWs (s : String) : List String := (wsTokensAux [] s.data).map String.mk

/-- Split a character list at the first occurrence of `pat`: `none` when
`pat` does not occur, otherwise the part before and the part after. -/
def charsBreak (pat : List Char) : List Char → Option (List Char × List Char)
  | [] => none
  | c :: t =>
    if pat.isPrefixOf (c :: t) then some ([], (c :: t).drop pat.length)
    else
      match charsBreak pat t with
      | some (pre, post) => some (c :: pre, post)
      | none => none

/-- Python `s.split(pat)[0]`: the text before the first occurrence of
`pat`, the whole string when `pat` does not occur. -/
def beforeFirst (pat s : String) : String :=
  match charsBreak pat.data s.data with
  | some (pre, _) => String.mk pre
  | none => s

/-- Python `s.split(pat, 1)[1]`: the text after the first occurrence of
`pat` (only used where the source guarantees an occurrence; yields `""`
otherwise). -/
def afterFirst (pat s : String) : String :=
  match charsBreak pat.data s.data with
  | some (_, post) => String.mk post
  | none => ""

/-- Substring occurrence test on character lists. -/
def charsContain (pat : List Char) : List Char → Bool
  | [] => pat.isEmpty
  | c :: t => pat.isPrefixOf (c :: t) || charsContain pat t

/-- Python `pat in s` (substring containment). -/
def strContains (s pat : String) : Bool := charsContain pat.data s.data

/-- Python `", ".join(l)`-style joining. -/
def pyJoin (sep : String) : List String → String
  | [] => ""
  | [x] => x
  | x :: xs => x ++ sep ++ pyJoin sep xs

/-- Python `s.replace("cpd:", "")`: every occurrence of `cpd:` removed,
scanning left to right (specialised to this fixed pattern so that the
recursion is structural). -/
def removeCpdChars : List Char → List Char
  | 'c' :: 'p' :: 'd' :: ':' :: rest => removeCpdChars rest
  | c :: rest => c :: removeCpdChars rest
  | [] => []

/-- Python `s.replace("cpd:", "")` on strings. -/
def removeCpd (s : String) : String := String.mk (removeCpdChars s.data)

/-- Python `s.replace("path:", "")`: every occurrence of `path:` removed. -/
def removePathChars : List Char → List Char
  | 'p' :: 'a' :: 't' :: 'h' :: ':' :: rest => removePathChars rest
  | c :: rest => c :: removePathChars rest
  | [] => []

/-- Python `s.replace("path:", "")` on strings. -/
def removePath (s : String) : String := String.mk (removePathChars s.data)

/-- The `KNOWN_COFACTOR_IDS` table from translator.py: KEGG compound ids
mapped to cofactor names. -/
def KNOWN_COFACTOR_IDS : List (String × String) :=
  [("C00002", "ATP"),
   ("C00008", "ADP"),
   ("C00020", "AMP"),
   ("C00003", "NAD+"),
   ("C00004", "NADH"),
   ("C00005", "NADPH"),
   ("C00006", "NADP+"),
   ("C00007", "FAD"),
   ("C00001", "H2O"),
   ("C00009", "Phosphate")]

/-- The `COFACTOR_KEYWORDS` set from translator.py.  The source's set
literal names `"coa"` twice; as a set it has these 14 distinct members,
including `"co-a"`. -/
def COFACTOR_KEYWORDS : List String :=
  ["atp", "adp", "amp", "nad", "nadh", "nadph", "nadp", "fad", "coa",
   "co-a", "coenzyme", "h2o", "pi", "phosphate"]

/-- The `normalized_id` computed by translator.py `_is_cofactor` (lines
77-82): the source strips the id and, when the result is nonempty, takes
its first whitespace token, removes every `cpd:` occurrence and
uppercases; stripping first does not change the whitespace tokens, so the
first token is the head of `pySplitWs`, and an empty or all-whitespace id
leaves `normalized_id` equal to `""` exactly as in the source. -/
def normalizedCofactorId (node_id : String) : String :=
  match pySplitWs node_id with
  | [] => ""
  | first_token :: _ => pyUpper (removeCpd first_token)

/-- Model of translator.py `_is_cofactor`. -/
def is_cofactor (node_id label : String) : Bool :=
  let normalized_id := normalizedCofactorId node_id
  let label_l := pyLower label
  if KNOWN_COFACTOR_IDS.any (fun p => p.1 == normalized_id) then true
  else if COFACTOR_KEYWORDS.contains (pyLower normalized_id) then true
  else if COFACTOR_KEYWORDS.any (fun k => strContains label_l k) then true
  else false

/-- The keyword set exactly as claim C4 states it (13 members, without the
source's extra `"co-a"` entry). -/
def CLAIMED_COFACTOR_KEYWORDS : List String :=
  ["atp", "adp", "amp", "nad", "nadh", "nadph", "nadp", "fad", "coa",
   "coenzyme", "h2o", "pi", "phosphate"]

/-- Removal of a leading `cpd:` namespace marker only (what claim C4 says
the normalization does). -/
def stripCpdPref (t : String) : String :=
  if pyStarts t "cpd:" then String.mk (t.data.drop 4) else t

/-- The cofactor predicate exactly as claim C4 states it: first whitespace
token of the identifier with a leading `cpd:` prefix stripped and
uppercased, checked against the compound-id table, then (lowercased)
against the claim's 13-keyword set, then the claim's keywords as
substrings of the lowercased label. -/
def isCofactorClaimed (node_id label : String) : Bool :=
  (match (pySplitWs node_id).head? with
   | some t => KNOWN_COFACTOR_IDS.any (fun p => p.1 == pyUpper (stripCpdPref t))
   | none => false) ||
  (match (pySplitWs node_id).head? with
   | some t => CLAIMED_COFACTOR_KEYWORDS.contains (pyLower (pyUpper (stripCpdPref t)))
   | none => false) ||
  CLAIMED_COFACTOR_KEYWORDS.any (fun k => strContains (pyLower label) k)

/-- The cofactor predicate as claim C4 must be amended: the keyword set
additionally contains `"co-a"` (the source's 14-member set), and the
normalization removes every occurrence of `"cpd:"` from the token rather
than only a leading prefix. -/
def isCofactorAmended (node_id label : String) : Bool :=
  (match (pySplitWs node_id).head? with
   | some t => KNOWN_COFACTOR_IDS.any (fun p => p.1 == pyUpper (removeCpd t))
   | none => false) ||
  (match (pySplitWs node_id).head? with
   | some t => COFACTOR_KEYWORDS.contains (pyLower (pyUpper (removeCpd t)))
   | none => false) ||
  COFACTOR_KEYWORDS.any (fun k => strContains (pyLower label) k)

/-- Reduction of the if-chain that `_is_cofactor` returns through to a
three-way disjunction. -/
theorem boolIfChain (a b c : Bool) :
    (if a = true then true else if b = true then true else if c = true then true else false)
      = (a || b || c) := by
  cases a <;> cases b <;> cases c <;> simp

/-- Claim C4 as stated is false: on the identifier `""` with label
`"co-a"` the source classifies the node as a cofactor (the keyword
`"co-a"`, absent from the claim's keyword set, occurs in the label), while
the claimed characterization does not. -/
theorem C4_counterexample :
    is_cofactor "" "co-a" = true ∧ isCofactorClaimed "" "co-a" = false := by
  constructor <;> decide

/-- C4 (amended): for every source identifier and label, `_is_cofactor`
returns true iff the first whitespace token of the identifier, with every
occurrence of `cpd:` removed and uppercased, is a key of the 10-entry KEGG
compound-id table, or its lowercase form is a member of the 14-keyword set
(the claim's 13 keywords together with `co-a`), or one of those keywords
occurs as a substring of the lowercased label. -/
theorem C4_theorem (node_id label : String) :
    is_cofactor node_id label = isCofactorAmended node_id label := by
  unfold is_cofactor isCofactorAmended normalizedCofactorId
  rcases h : pySplitWs node_id with _ | ⟨t, rest⟩ <;> simp only [h, List.head?]
  · rw [boolIfChain]
    have h1 : KNOWN_COFACTOR_IDS.any (fun p => p.1 == "") = false := by decide
    have h2 : COFACTOR_KEYWORDS.contains (pyLower "") = false := by decide
    have h3 : pyLower "" ∉ COFACTOR_KEYWORDS := by decide
    simp [h1, h2, h3]
  · rw [boolIfChain]

/-- Strip a namespace marker from a token: the text after the first colon
when a colon occurs, the token itself otherwise. -/
def stripNsTok (tok : String) : String :=
  if tok.data.contains ':' then afterFirst ":" tok else tok

/-- Model of translator.py `_normalize_label` (lines 45-58): strip the
raw name, fall back to the entry id when the stripped raw name is empty,
otherwise take the first line, truncate at the first `...`, and resolve
`cpd:` / `ko:` / `eco:` / `rn:` namespace markers. -/
def normalize_label (raw fallback : String) : String :=
  let raw := pyStrip raw
  if raw = "" then fallback
  else
    let first := pyStrip (beforeFirst "\n" raw)
    let first := pyStrip (beforeFirst "..." first)
    if pyStarts first "cpd:" then afterFirst ":" first
    else if pyStarts first "ko:" || pyStarts first "eco:" || pyStarts first "rn:" then
      let tok := beforeFirst " " first
      if tok.data.contains ':' then afterFirst ":" tok else tok
    else first

/-- `normalizeLabel` exactly as claim C9 states it: first line, truncation
at the first `...` marker, leading `cpd:` strip, first
whitespace-delimited token with its namespace prefix stripped for
`ko:`/`eco:`/`rn:` input, and the entry id as fallback whenever the result
of this normalization is empty. -/
def normalizeLabelClaimed (raw fallback : String) : String :=
  let first := pyStrip (beforeFirst "..." (pyStrip (beforeFirst "\n" (pyStrip raw))))
  let result :=
    if pyStarts first "cpd:" then afterFirst ":" first
    else if pyStarts first "ko:" || pyStarts first "eco:" || pyStarts first "rn:" then
      stripNsTok ((pySplitWs first).headD first)
    else first
  if result = "" then fallback else result

/-- `normalizeLabel` as claim C9 must be amended: the fallback applies
exactly when the raw string is empty or all whitespace before any
normalization (a string that becomes empty during normalization is
returned as the empty string), and the `ko:`/`eco:`/`rn:` token is the
text before the first space character (not a general whitespace split). -/
def normalizeLabelAmended (raw fallback : String) : String :=
  if pyStrip raw = "" then fallback
  else
    let first := pyStrip (beforeFirst "..." (pyStrip (beforeFirst "\n" (pyStrip raw))))
    if pyStarts first "cpd:" then afterFirst ":" first
    else if pyStarts first "ko:" || pyStarts first "eco:" || pyStarts first "rn:" then
      stripNsTok (beforeFirst " " first)
    else first

/-- Claim C9 as stated is false: the raw name `"..."` normalizes to the
empty string, and the source returns that empty string rather than
falling back to the entry id `"42"`, while the claimed behaviour returns
the fallback. -/
theorem C9_counterexample :
    normalize_label "..." "42" = "" ∧ normalizeLabelClaimed "..." "42" = "42" := by
  constructor <;> decide

/-- C9 (amended): `_normalize_label` takes the first line, truncates at
the first `...` marker, strips a leading `cpd:` prefix, or for
`ko:`/`eco:`/`rn:`-prefixed input takes the text before the first space
with its namespace prefix stripped; the entry id is returned exactly when
the raw string is empty or all whitespace before normalization. -/
theorem C9_theorem (raw fallback : String) :
    normalize_label raw fallback = normalizeLabelAmended raw fallback ∧
    (pyStrip raw = "" → normalize_label raw fallback = fallback) := by
  constructor
  · unfold normalize_label normalizeLabelAmended stripNsTok
    rfl
  · intro h
    unfold normalize_label
    simp [h]

/-- Concrete instantiation of the fallback direction of C9 (amended): an
all-whitespace raw name falls back to the entry id. -/
theorem C9_witness :
    pyStrip "\t" = "" ∧ normalize_label "\t" "E7" = "E7" :=
  ⟨by decide, ( C9_theorem "\t" "E7").2 (by decide)⟩

/-- Python `a or b` where `a` is an optional string and `b` a string. -/
def pyOrOS (a : Option String) (b : String) : String :=
  match truthy a with
  | some s => s
  | none => b

/-- Association-list lookup, Python `dict.get(k)` / `dict[k]`. -/
def assocLookup {α : Type} : List (String × α) → String → Option α
  | [], _ => none
  | (k', v) :: rest, k => if k' = k then some v else assocLookup rest k

/-- Python dict assignment `m[k] = v`: replace the value in place when the
key exists (keeping its insertion position), append otherwise. -/
def assocUpd {α : Type} : List (String × α) → String → α → List (String × α)
  | [], k, v => [(k, v)]
  | (k', v') :: rest, k, v =>
    if k' = k then (k, v) :: rest else (k', v') :: assocUpd rest k v

/-- Python `m.setdefault(k, []).append(x)`. -/
def assocAppend : List (String × List String) → String → String → List (String × List String)
  | [], k, x => [(k, [x])]
  | (k', vs) :: rest, k, x =>
    if k' = k then (k, vs ++ [x]) :: rest else (k', vs) :: assocAppend rest k x

/-- Python `set.add`-style insertion into an ordered deduplicated list. -/
def listInsert (l : List String) (x : String) : List String :=
  if x ∈ l then l else l ++ [x]

/-- A KGML `graphics` child element.  Numeric attributes are modelled as
already parsed: `none` stands for a missing (or unparsable) attribute,
which `_parse_float` maps to 0. -/
structure KgmlGraphics where
  name : Option String
  x : Option Rat
  y : Option Rat
deriving DecidableEq

/-- A KGML `entry` element (attributes `id`, `type`, `name`, `reaction`,
optional `graphics` child, own `x`/`y` attributes). -/
structure KgmlEntry where
  id : Option String
  type : Option String
  name : Option String
  graphics : Option KgmlGraphics
  x : Option Rat
  y : Option Rat
  reaction : Option String
deriving DecidableEq

/-- A KGML `substrate` or `product` child of a reaction (attribute `id`). -/
structure KgmlSubstrateRef where
  id : Option String
deriving DecidableEq

/-- A KGML `reaction` element. -/
structure KgmlReaction where
  id : Option String
  name : Option String
  type : Option String
  substrates : List KgmlSubstrateRef
  products : List KgmlSubstrateRef
deriving DecidableEq

/-- A parsed KGML document: root attributes `name`/`title`, child `entry`
and `reaction` elements in document order. -/
structure KgmlDoc where
  name : Option String
  title : Option String
  entries : List KgmlEntry
  reactions : List KgmlReaction
deriving DecidableEq

/-- The per-entry record `_collect_entry_data` stores in `entries_by_id`. -/
structure EntryData where
  id : String
  type : String
  name : String
  label : String
  x : Rat
  y : Rat
  reaction_ids : List String
  reaction_name : String
deriving DecidableEq

/-- The record built for one `entry` element by `_collect_entry_data`
(translator.py lines 110-141); `none` when the entry has no usable id.
The `reaction_ids` Python set is modelled as an insertion-ordered
deduplicated list (the source iterates the set in unspecified order; no
claim depends on that order). -/
def entryDatum (e : KgmlEntry) : Option (String × EntryData) :=
  match truthy e.id with
  | none => none
  | some entry_id =>
    let entry_type := e.type.getD "unknown"
    let name_attr := e.name.getD ""
    let graphics_label : Option String :=
      match e.graphics with
      | some g => g.name
      | none => none
    let raw_label := normalize_label (pyOrOS graphics_label name_attr) entry_id
    let x := (match e.graphics with | some g => g.x | none => e.x).getD 0
    let y := (match e.graphics with | some g => g.y | none => e.y).getD 0
    let reaction_attr := pyStrip (e.reaction.getD "")
    let toks := pySplitWs reaction_attr
    let reaction_ids :=
      ((toks.filter (fun t => pyStarts t "rn:")).map (fun t => String.mk (t.data.drop 3))
        ++ toks.filter (fun t => pyStarts t "R")).foldl listInsert []
    some (entry_id,
      { id := entry_id, type := entry_type, name := name_attr, label := raw_label,
        x := x, y := y, reaction_ids := reaction_ids, reaction_name := reaction_attr })

/-- The three tables `_collect_entry_data` returns. -/
structure EntryTables where
  entriesById : List (String × EntryData)
  reactionLookup : List (String × List String)
  typeLookup : List (String × String)

/-- One step of the entry-collection loop: a dict assignment for the
entry's id when the entry has one, a no-op otherwise. -/
def updStep {α β : Type} (f : α → Option (String × β)) (m : List (String × β)) (e : α) :
    List (String × β) :=
  match f e with
  | none => m
  | some (k, d) => assocUpd m k d

/-- Model of translator.py `_collect_entry_data` (lines 105-148); the
source fills `entries_by_id` and `type_lookup` in one loop over the
entries, modelled as two folds of the same per-entry assignment. -/
def collect_entry_data (doc : KgmlDoc) : EntryTables :=
  let entriesById := doc.entries.foldl (updStep entryDatum) []
  let typeLookup := doc.entries.foldl
    (updStep (fun e => (entryDatum e).map (fun q => (q.1, q.2.type)))) []
  let reactionLookup := entriesById.foldl (fun m p =>
    p.2.reaction_ids.foldl (fun m2 rid => assocAppend m2 rid p.1) m) []
  { entriesById := entriesById, reactionLookup := reactionLookup, typeLookup := typeLookup }

/-- Python `min(l)` on a nonempty list (0 on the empty list, never used). -/
def pyMin : List Rat → Rat
  | [] => 0
  | h :: t => t.foldl min h

/-- Python `max(l)` on a nonempty list (0 on the empty list, never used). -/
def pyMax : List Rat → Rat
  | [] => 0
  | h :: t => t.foldl max h

/-- The scale factor `_normalize_coordinates` computes (lines 158-166),
for the viewport (1200, 900) and padding 80 used at its only call site. -/
def kgmlScale (nodes : List (String × EntryData)) : Rat :=
  let xs := nodes.map (fun p => p.2.x)
  let ys := nodes.map (fun p => p.2.y)
  let range_x := max (pyMax xs - pyMin xs) 1
  let range_y := max (pyMax ys - pyMin ys) 1
  let scale_x := (1200 - 2 * 80) / range_x
  let scale_y := (900 - 2 * 80) / range_y
  min (min scale_x scale_y) 5

/-- Model of translator.py `_normalize_coordinates` (lines 151-170); the
in-place dict mutation is modelled as a map over the association list. -/
def normalize_coordinates (nodes : List (String × EntryData)) : List (String × EntryData) :=
  let xs := nodes.map (fun p => p.2.x)
  if xs = [] then nodes
  else
    let ys := nodes.map (fun p => p.2.y)
    let min_x := pyMin xs
    let min_y := pyMin ys
    let scale := kgmlScale nodes
    nodes.map (fun p => (p.1,
      { p.2 with x := (p.2.x - min_x) * scale + 80, y := (p.2.y - min_y) * scale + 80 }))

/-- The node record of models.py `MetaboliteNode` (metadata restricted to
the string-valued provenance entries the translator writes). -/
structure MetaboliteNode where
  id : String
  label : String
  x : Rat
  y : Rat
  type : String
  is_cofactor : Bool
  raw_id : Option String
  metadata : List (String × String)
deriving DecidableEq

/-- The edge record of models.py `ReactionEdge`; `annot` models the
source's free-text annotation field. -/
structure ReactionEdge where
  id : String
  source : String
  target : String
  label : String
  reaction_id : String
  reaction_name : String
  status : String
  reversible : Bool
  enzymes : List String
  annot : String
  metadata : List (String × String)
deriving DecidableEq

/-- Model of translator.py `_reaction_display_label` (lines 173-178). -/
def reaction_display_label (reaction_name reaction_id : String) : String :=
  if reaction_name ≠ "" then
    let rn_terms := (pySplitWs reaction_name).filter (fun r => pyStarts r "rn:")
    if rn_terms ≠ [] then pyJoin ", " rn_terms else reaction_id
  else reaction_id

/-- Model of translator.py `_extract_enzyme_labels` (lines 181-213); the
`seen` set coincides with the deduplicated `enzyme_entries` list. -/
def extract_enzyme_labels (reaction_id : String) (reaction_ids : List String)
    (reaction_to_entries : List (String × List String))
    (entries_by_id : List (String × EntryData)) : List String :=
  let enzyme_entries : List String :=
    if reaction_id ≠ "" ∧ (assocLookup entries_by_id reaction_id).isSome then [reaction_id] else []
  let enzyme_entries := reaction_ids.foldl (fun acc rid =>
    ((assocLookup reaction_to_entries rid).getD []).foldl (fun acc2 eid =>
      if eid ∈ acc2 then acc2 else acc2 ++ [eid]) acc) enzyme_entries
  let labels := enzyme_entries.foldl (fun ls eid =>
    match assocLookup entries_by_id eid with
    | none => ls
    | some d =>
      if d.label ≠ "" ∧ d.label ∉ ls ∧ d.label.data.length < 32 then ls ++ [d.label] else ls) []
  labels.take 4

/-- A character the regex class `[^a-zA-Z0-9_\\-]` of `_reaction_edge_id`
does NOT replace (the source's raw-string class contains a literal
backslash and the hyphen). -/
def safeChar (c : Char) : Bool := c.isAlphanum || c == '_' || c == '\\' || c == '-'

/-- Model of translator.py `_reaction_edge_id` (lines 216-218). -/
def reaction_edge_id (reaction_id source target : String) : String :=
  String.mk (reaction_id.data.map (fun c => if safeChar c then c else '_'))
    ++ ":" ++ source ++ "->" ++ target

/-- The forward edge emitted for one (substrate, product) pair
(translator.py lines 299-315). -/
def mkKgmlForward (rid rname : String) (rev : Bool) (enzymes : List String)
    (typeLookup : List (String × String)) (source target : String) : ReactionEdge :=
  { id := reaction_edge_id (pyOrS rid rname) source target
    source := source
    target := target
    label := reaction_display_label rname rid
    reaction_id := rid
    reaction_name := rname
    status := "normal"
    reversible := rev
    enzymes := enzymes
    annot := ""
    metadata := [("source_type", (assocLookup typeLookup source).getD ""),
                 ("target_type", (assocLookup typeLookup target).getD ""),
                 ("kgml_type", "reaction")] }

/-- The backward edge emitted for a reversible reaction (translator.py
lines 320-336); `source`/`target` here are the original pair, the edge
swaps them. -/
def mkKgmlReverse (rid rname : String) (enzymes : List String)
    (typeLookup : List (String × String)) (source target : String) : ReactionEdge :=
  { id := reaction_edge_id (rid ++ "_rev") target source
    source := target
    target := source
    label := reaction_display_label rname rid
    reaction_id := rid
    reaction_name := rname
    status := "normal"
    reversible := true
    enzymes := enzymes
    annot := ""
    metadata := [("source_type", (assocLookup typeLookup target).getD ""),
                 ("target_type", (assocLookup typeLookup source).getD ""),
                 ("kgml_type", "reaction_reversible_partner")] }

/-- One iteration of the inner substrate × product loop of
`translate_kgml_to_graph` (lines 291-336), threading the `seen_edges` set
and the edge list. -/
def kgmlPairStep (rid rname : String) (rev : Bool) (enzymes : List String)
    (typeLookup : List (String × String)) (node_ids : List String)
    (st : List (String × String × String) × List ReactionEdge)
    (p : String × String) : List (String × String × String) × List ReactionEdge :=
  let source := p.1
  let target := p.2
  if source ∉ node_ids ∨ target ∉ node_ids then st
  else if (rid, source, target) ∈ st.1 then st
  else
    let seen := st.1 ++ [(rid, source, target)]
    let edges := st.2 ++ [mkKgmlForward rid rname rev enzymes typeLookup source target]
    if rev then
      if (rid, target, source) ∈ seen then (seen, edges)
      else (seen ++ [(rid, target, source)],
            edges ++ [mkKgmlReverse rid rname enzymes typeLookup source target])
    else (seen, edges)

/-- Processing of one `reaction` element by `translate_kgml_to_graph`
(lines 269-336). -/
def kgmlReactionStep (tables : EntryTables) (node_ids : List String)
    (st : List (String × String × String) × List ReactionEdge)
    (r : KgmlReaction) : List (String × String × String) × List ReactionEdge :=
  let reaction_id := r.id.getD ""
  let reaction_name := r.name.getD ""
  let reversible := (r.type.getD "irreversible") == "reversible"
  let substrates := r.substrates.filterMap (fun s => truthy s.id)
  let products := r.products.filterMap (fun p => truthy p.id)
  if substrates = [] ∨ products = [] then st
  else
    let rn_ids := (pySplitWs reaction_name).filter (fun t => pyStarts t "rn:")
    let rn_ids := if rn_ids = [] then (if reaction_id ≠ "" then [reaction_id] else []) else rn_ids
    let enzymes := extract_enzyme_labels reaction_id rn_ids tables.reactionLookup tables.entriesById
    (substrates.flatMap (fun s => products.map (fun t => (s, t)))).foldl
      (kgmlPairStep reaction_id reaction_name reversible enzymes tables.typeLookup node_ids) st

/-- The compound entries of a document (translator.py lines 237-241). -/
def kgmlCompoundEntries (doc : KgmlDoc) : List (String × EntryData) :=
  (collect_entry_data doc).entriesById.filter (fun p => p.2.type == "compound")

/-- The compound entries after coordinate normalization (line 243). -/
def kgmlNormalizedCompounds (doc : KgmlDoc) : List (String × EntryData) :=
  normalize_coordinates (kgmlCompoundEntries doc)

/-- The node list built by `translate_kgml_to_graph` (lines 245-263):
cofactor nodes are skipped during construction when hiding is on. -/
def kgmlNodesPre (doc : KgmlDoc) (hide_cofactors : Bool) : List MetaboliteNode :=
  (kgmlNormalizedCompounds doc).filterMap (fun p =>
    let isCof := is_cofactor p.2.name p.2.label
    if hide_cofactors && isCof then none
    else some
      { id := p.2.id, label := p.2.label, x := p.2.x, y := p.2.y,
        type := "metabolite", is_cofactor := isCof, raw_id := some p.2.name,
        metadata := [("original_type", p.2.type), ("entry_name", p.2.name)] })

/-- The `node_ids` set of line 265. -/
def kgmlNodeIds (doc : KgmlDoc) (hide_cofactors : Bool) : List String :=
  (kgmlNodesPre doc hide_cofactors).map (fun n => n.id)

/-- The edge list built by the reaction loop (lines 266-336). -/
def kgmlEdgesPre (doc : KgmlDoc) (hide_cofactors : Bool) : List ReactionEdge :=
  (doc.reactions.foldl
    (kgmlReactionStep (collect_entry_data doc) (kgmlNodeIds doc hide_cofactors))
    ([], [])).2

/-- The result record of `translate_kgml_to_graph`. -/
structure KGMLParseResult where
  pathway_id : String
  pathway_name : String
  nodes : List MetaboliteNode
  edges : List ReactionEdge
deriving DecidableEq

/-- Model of translator.py `translate_kgml_to_graph` (lines 229-348),
including the post-pass cofactor filter of lines 338-341. -/
def translate_kgml_to_graph (doc : KgmlDoc) (hide_cofactors : Bool) : KGMLParseResult :=
  let nodes := kgmlNodesPre doc hide_cofactors
  let edges := kgmlEdgesPre doc hide_cofactors
  let pid := removePath (doc.name.getD "unknown")
  let pname := doc.title.getD "KEGG pathway"
  if hide_cofactors then
    let nodes2 := nodes.filter (fun n => !n.is_cofactor)
    let valid_ids := nodes2.map (fun n => n.id)
    { pathway_id := pid, pathway_name := pname, nodes := nodes2,
      edges := edges.filter (fun e =>
        decide (e.source ∈ valid_ids) && decide (e.target ∈ valid_ids)) }
  else
    { pathway_id := pid, pathway_name := pname, nodes := nodes, edges := edges }

/-- A fold preserves any invariant its step preserves. -/
theorem foldl_preserve {α σ : Type} {f : σ → α → σ} {P : σ → Prop}
    (h : ∀ s a, P s → P (f s a)) : ∀ (l : List α) (s : σ), P s → P (l.foldl f s)
  | [], _, hs => hs
  | a :: l, s, hs => foldl_preserve h l (f s a) (h s a hs)

/-- Appending a fresh element keeps a list duplicate-free. -/
theorem nodupSnoc {α : Type} {l : List α} {a : α} (h : l.Nodup) (ha : a ∉ l) :
    (l ++ [a]).Nodup := by
  simp [List.nodup_append, h, ha]

/-- The deduplication key of an emitted edge: the triple that claim C1 is
about. -/
def edgeTriple (e : ReactionEdge) : String × String × String :=
  (e.reaction_id, e.source, e.target)

/-- Invariant threaded through the KGML reaction loop: every emitted
edge's triple is registered in `seen_edges`, and the emitted triples are
pairwise distinct. -/
def KeyInv (st : List (String × String × String) × List ReactionEdge) : Prop :=
  (∀ e ∈ st.2, edgeTriple e ∈ st.1) ∧ (st.2.map edgeTriple).Nodup

theorem kgmlPairStep_inv (rid rname : String) (rev : Bool) (enz : List String)
    (tl : List (String × String)) (nids : List String)
    (st : List (String × String × String) × List ReactionEdge) (p : String × String)
    (h : KeyInv st) : KeyInv (kgmlPairStep rid rname rev enz tl nids st p) := by
  obtain ⟨h1, h2⟩ := h
  simp only [kgmlPairStep]
  split
  · exact ⟨h1, h2⟩
  split
  · exact ⟨h1, h2⟩
  rename_i hmem hk
  have hfwd : edgeTriple (mkKgmlForward rid rname rev enz tl p.1 p.2) = (rid, p.1, p.2) := rfl
  have hfwdNotIn : (rid, p.1, p.2) ∉ st.2.map edgeTriple := by
    intro hc
    rcases List.mem_map.1 hc with ⟨e, he, hte⟩
    exact hk (hte ▸ h1 e he)
  have base1 : ∀ e ∈ st.2 ++ [mkKgmlForward rid rname rev enz tl p.1 p.2],
      edgeTriple e ∈ st.1 ++ [(rid, p.1, p.2)] := by
    intro e he
    rcases List.mem_append.1 he with he | he
    · exact List.mem_append_left _ (h1 e he)
    · rcases List.mem_singleton.1 he with rfl
      exact List.mem_append_right _ (by simp [hfwd])
  have base2 : ((st.2 ++ [mkKgmlForward rid rname rev enz tl p.1 p.2]).map edgeTriple).Nodup := by
    rw [List.map_append]
    exact nodupSnoc h2 (by simpa [hfwd] using hfwdNotIn)
  split
  · split
    · exact ⟨base1, base2⟩
    rename_i hrevk
    have hrev : edgeTriple (mkKgmlReverse rid rname enz tl p.1 p.2) = (rid, p.2, p.1) := rfl
    refine ⟨?_, ?_⟩
    · intro e he
      rcases List.mem_append.1 he with he | he
      · exact List.mem_append_left _ (base1 e he)
      · rcases List.mem_singleton.1 he with rfl
        exact List.mem_append_right _ (by simp [hrev])
    · rw [List.map_append]
      refine nodupSnoc base2 ?_
      intro hc
      rcases List.mem_map.1 hc with ⟨e, he, hte⟩
      exact hrevk (hrev ▸ hte ▸ base1 e he)
  · exact ⟨base1, base2⟩

theorem kgmlReactionStep_inv (tables : EntryTables) (nids : List String)
    (st : List (String × String × String) × List ReactionEdge) (r : KgmlReaction)
    (h : KeyInv st) : KeyInv (kgmlReactionStep tables nids st r) := by
  simp only [kgmlReactionStep]
  split
  · exact h
  · exact foldl_preserve (fun s p hp => kgmlPairStep_inv _ _ _ _ _ _ s p hp) _ _ h

theorem kgmlEdgesPre_triples_nodup (doc : KgmlDoc) (hide_cofactors : Bool) :
    ((kgmlEdgesPre doc hide_cofactors).map edgeTriple).Nodup := by
  have h0 : KeyInv (([], []) : List (String × String × String) × List ReactionEdge) :=
    ⟨fun e he => absurd he (List.not_mem_nil e), by simp⟩
  have h : KeyInv (doc.reactions.foldl
      (kgmlReactionStep (collect_entry_data doc) (kgmlNodeIds doc hide_cofactors)) ([], [])) :=
    foldl_preserve (fun s r hp => kgmlReactionStep_inv _ _ s r hp) _ _ h0
  exact h.2

/-- Invariant threaded through the KGML reaction loop for claim C2: every
emitted edge's endpoints are ids of emitted nodes. -/
def EndpointInv (nids : List String)
    (st : List (String × String × String) × List ReactionEdge) : Prop :=
  ∀ e ∈ st.2, e.source ∈ nids ∧ e.target ∈ nids

theorem kgmlPairStep_endpoints (rid rname : String) (rev : Bool) (enz : List String)
    (tl : List (String × String)) (nids : List String)
    (st : List (String × String × String) × List ReactionEdge) (p : String × String)
    (h : EndpointInv nids st) : EndpointInv nids (kgmlPairStep rid rname rev enz tl nids st p) := by
  simp only [kgmlPairStep]
  split
  · exact h
  split
  · exact h
  rename_i hmem hk
  have hin : p.1 ∈ nids ∧ p.2 ∈ nids := by
    constructor
    · by_contra hc; exact hmem (Or.inl hc)
    · by_contra hc; exact hmem (Or.inr hc)
  have base : EndpointInv nids
      (st.1 ++ [(rid, p.1, p.2)],
       st.2 ++ [mkKgmlForward rid rname rev enz tl p.1 p.2]) := by
    intro e he
    rcases List.mem_append.1 he with he | he
    · exact h e he
    · rcases List.mem_singleton.1 he with rfl
      exact hin
  split
  · split
    · exact base
    · intro e he
      rcases List.mem_append.1 he with he | he
      · exact base e he
      · rcases List.mem_singleton.1 he with rfl
        exact ⟨hin.2, hin.1⟩
  · exact base

theorem kgmlReactionStep_endpoints (tables : EntryTables) (nids : List String)
    (st : List (String × String × String) × List ReactionEdge) (r : KgmlReaction)
    (h : EndpointInv nids st) : EndpointInv nids (kgmlReactionStep tables nids st r) := by
  simp only [kgmlReactionStep]
  split
  · exact h
  · exact foldl_preserve (fun s p hp => kgmlPairStep_endpoints _ _ _ _ _ _ s p hp) _ _ h

theorem kgmlEdgesPre_endpoints (doc : KgmlDoc) (hide_cofactors : Bool) :
    ∀ e ∈ kgmlEdgesPre doc hide_cofactors,
      e.source ∈ kgmlNodeIds doc hide_cofactors ∧ e.target ∈ kgmlNodeIds doc hide_cofactors := by
  have h0 : EndpointInv (kgmlNodeIds doc hide_cofactors)
      (([], []) : List (String × String × String) × List ReactionEdge) :=
    fun e he => absurd he (List.not_mem_nil e)
  exact foldl_preserve (fun s r hp => kgmlReactionStep_endpoints _ _ s r hp)
    doc.reactions ([], []) h0

/-- The node list built with cofactor hiding is the unfiltered node list
with the cofactor nodes removed. -/
theorem filterMap_skip_eq_filter {α : Type} (f : α → Bool) (g : α → MetaboliteNode)
    (hg : ∀ a, (g a).is_cofactor = f a) :
    ∀ l : List α,
      (l.filterMap (fun a => if f a then none else some (g a)))
        = (l.filterMap (fun a => some (g a))).filter (fun n => !n.is_cofactor)
  | [] => rfl
  | a :: l => by
    rcases hfa : f a with _ | _ <;>
      simp [List.filterMap_cons, List.filter_cons, hfa, hg,
        filterMap_skip_eq_filter f g hg l]

theorem kgmlNodesPre_true_eq_filter (doc : KgmlDoc) :
    kgmlNodesPre doc true = (kgmlNodesPre doc false).filter (fun n => !n.is_cofactor) := by
  simp only [kgmlNodesPre, Bool.true_and, Bool.false_and, Bool.false_eq_true, if_false]
  exact filterMap_skip_eq_filter (fun p : String × EntryData => is_cofactor p.2.name p.2.label)
    (fun p : String × EntryData =>
      { id := p.2.id, label := p.2.label, x := p.2.x, y := p.2.y,
        type := "metabolite", is_cofactor := is_cofactor p.2.name p.2.label,
        raw_id := some p.2.name,
        metadata := [("original_type", p.2.type), ("entry_name", p.2.name)] })
    (fun a => rfl) _

/-- With hiding on, every node that survives construction is a
non-cofactor. -/
theorem kgmlNodesPre_false_all (doc : KgmlDoc) :
    ∀ n ∈ kgmlNodesPre doc true, n.is_cofactor = false := by
  intro n hn
  rw [kgmlNodesPre_true_eq_filter] at hn
  have := List.of_mem_filter hn
  simpa using this

/-- C1 (amended): in the KGML pipeline no two emitted edges ever carry the
same triple of reaction_id, source and target, for every document and
filter flag; the original claim's SBML half fails (see the
counterexample), because the SBML pipeline registers a reversible
reaction's backward edge under the `_rev`-suffixed reaction id, so that
backward edge can coexist with a forward edge of the same reaction
between the same ordered endpoint pair. -/
theorem C1_theorem (doc : KgmlDoc) (hide_cofactors : Bool) :
    (((translate_kgml_to_graph doc hide_cofactors).edges).map edgeTriple).Nodup := by
  have h := kgmlEdgesPre_triples_nodup doc hide_cofactors
  cases hide_cofactors
  · exact h
  · exact List.Nodup.sublist (List.Sublist.map edgeTriple (List.filter_sublist _)) h

/-- C6: the node set returned with cofactor hiding is exactly the
unfiltered node set with the cofactor-classified nodes removed, and in
particular a subset of it; filtering never reintroduces or alters other
nodes. -/
theorem C6_theorem (doc : KgmlDoc) :
    (translate_kgml_to_graph doc true).nodes
        = ((translate_kgml_to_graph doc false).nodes).filter (fun n => !n.is_cofactor) ∧
    (translate_kgml_to_graph doc true).nodes ⊆ (translate_kgml_to_graph doc false).nodes := by
  have hT : (translate_kgml_to_graph doc true).nodes
      = (kgmlNodesPre doc true).filter (fun n => !n.is_cofactor) := rfl
  have hF : (translate_kgml_to_graph doc false).nodes = kgmlNodesPre doc false := rfl
  have key : (translate_kgml_to_graph doc true).nodes
      = ((translate_kgml_to_graph doc false).nodes).filter (fun n => !n.is_cofactor) := by
    rw [hT, hF, kgmlNodesPre_true_eq_filter]
    simp [List.filter_filter]
  refine ⟨key, ?_⟩
  rw [key]
  exact (List.filter_sublist _).subset

/-- Every edge of the final KGML result has both endpoints among the ids
of the final node list (the KGML half of claim C2). -/
theorem kgmlTranslate_endpoints (doc : KgmlDoc) (hide_cofactors : Bool) :
    ∀ e ∈ (translate_kgml_to_graph doc hide_cofactors).edges,
      e.source ∈ (translate_kgml_to_graph doc hide_cofactors).nodes.map (fun n => n.id) ∧
      e.target ∈ (translate_kgml_to_graph doc hide_cofactors).nodes.map (fun n => n.id) := by
  intro e he
  cases hide_cofactors
  · exact kgmlEdgesPre_endpoints doc false e he
  · have hedges : (translate_kgml_to_graph doc true).edges
        = (kgmlEdgesPre doc true).filter (fun e =>
            decide (e.source ∈ ((kgmlNodesPre doc true).filter
              (fun n => !n.is_cofactor)).map (fun n => n.id)) &&
            decide (e.target ∈ ((kgmlNodesPre doc true).filter
              (fun n => !n.is_cofactor)).map (fun n => n.id))) := rfl
    rw [hedges] at he
    have h2 := (List.mem_filter.1 he).2
    rw [Bool.and_eq_true] at h2
    exact ⟨of_decide_eq_true h2.1, of_decide_eq_true h2.2⟩

/-- Keys of an updated association list: unchanged when the key already
occurs, extended by the key otherwise. -/
theorem assocUpd_fst {α : Type} (k : String) (v : α) :
    ∀ m : List (String × α),
      (assocUpd m k v).map Prod.fst
        = if k ∈ m.map Prod.fst then m.map Prod.fst else m.map Prod.fst ++ [k]
  | [] => by simp [assocUpd]
  | (k', v') :: m => by
    by_cases hk : k' = k
    · subst hk
      simp [assocUpd]
    · simp only [assocUpd, if_neg hk, List.map_cons]
      rw [assocUpd_fst k v m]
      have hne : ¬k = k' := fun h => hk h.symm
      by_cases hm : k ∈ m.map Prod.fst
      · simp [hm, List.mem_cons, hne]
      · simp [hm, List.mem_cons, hne]

/-- Membership in an updated association list. -/
theorem assocUpd_mem {α : Type} (k : String) (v : α) :
    ∀ (m : List (String × α)) (q : String × α), q ∈ assocUpd m k v → q ∈ m ∨ q = (k, v)
  | [], q, h => by simpa [assocUpd] using h
  | (k', v') :: m, q, h => by
    by_cases hk : k' = k
    · subst hk
      simp only [assocUpd, if_pos rfl] at h
      rcases List.mem_cons.1 h with h | h
      · exact Or.inr h
      · exact Or.inl (List.mem_cons_of_mem _ h)
    · simp only [assocUpd, if_neg hk] at h
      rcases List.mem_cons.1 h with h | h
      · exact Or.inl (h ▸ List.mem_cons_self _ _)
      · rcases assocUpd_mem k v m q h with h | h
        · exact Or.inl (List.mem_cons_of_mem _ h)
        · exact Or.inr h

/-- Lookup in an updated association list. -/
theorem assocUpd_lookup {α : Type} (k k0 : String) (v : α) :
    ∀ m : List (String × α),
      assocLookup (assocUpd m k v) k0 = if k = k0 then some v else assocLookup m k0
  | [] => by simp [assocUpd, assocLookup]
  | (k', v') :: m => by
    by_cases hk : k' = k
    · subst hk
      by_cases h0 : k' = k0 <;> simp [assocUpd, assocLookup, h0]
    · by_cases h0 : k' = k0
      · subst h0
        have hne : ¬k = k' := fun h => hk h.symm
        simp [assocUpd, assocLookup, hk, hne]
      · simp [assocUpd, assocLookup, hk, h0, assocUpd_lookup k k0 v m]

/-- The value of the last pair carrying key `k` in a pair list (`none`
when no pair carries it): what a sequence of Python dict assignments
leaves behind for `k`. -/
def lastValue {α : Type} (k : String) : List (String × α) → Option α
  | [] => none
  | q :: l =>
    match lastValue k l with
    | some v => some v
    | none => if q.1 = k then some q.2 else none

/-- Folding dict assignments over a pair list: the lookup afterwards sees
the last assignment to the key, else whatever the initial dict had. -/
theorem foldl_assocUpd_lookup {α : Type} (k : String) :
    ∀ (l : List (String × α)) (m : List (String × α)),
      assocLookup (l.foldl (fun acc q => assocUpd acc q.1 q.2) m) k
        = match lastValue k l with
          | some v => some v
          | none => assocLookup m k
  | [], _ => rfl
  | q :: l, m => by
    rw [List.foldl_cons, foldl_assocUpd_lookup k l (assocUpd m q.1 q.2)]
    rcases hl : lastValue k l with _ | v
    · simp only [lastValue, hl]
      rw [assocUpd_lookup]
      by_cases hq : q.1 = k <;> simp [hq]
    · simp [lastValue, hl]

/-- The entry-collection fold is the fold of plain dict assignments over
the per-entry data. -/
theorem foldl_updStep_eq {α β : Type} (f : α → Option (String × β)) :
    ∀ (l : List α) (m : List (String × β)),
      l.foldl (updStep f) m
        = (l.filterMap f).foldl (fun acc q => assocUpd acc q.1 q.2) m
  | [], _ => rfl
  | e :: l, m => by
    rcases hf : f e with _ | q <;>
      simp [List.filterMap_cons, updStep, hf, foldl_updStep_eq f l]

/-- The data record built for an entry carries the entry's own id. -/
theorem entryDatum_id (e : KgmlEntry) (k : String) (d : EntryData)
    (h : entryDatum e = some (k, d)) : d.id = k := by
  unfold entryDatum at h
  rcases ht : truthy e.id with _ | eid
  · rw [ht] at h; cases h
  · rw [ht] at h
    simp only [Option.some.injEq, Prod.mk.injEq] at h
    obtain ⟨hk, hd⟩ := h
    rw [← hd, ← hk]

/-- C3, KGML uniqueness: the ids stored in `entries_by_id` are pairwise
distinct (dict keys). -/
theorem entriesById_fst_nodup (doc : KgmlDoc) :
    ((collect_entry_data doc).entriesById.map Prod.fst).Nodup := by
  have h := foldl_preserve
    (P := fun m : List (String × EntryData) => (m.map Prod.fst).Nodup)
    (f := updStep entryDatum)
    (fun m e hm => by
      rcases he : entryDatum e with _ | ⟨k, d⟩
      · simpa [updStep, he] using hm
      · simp only [updStep, he]
        rw [assocUpd_fst]
        split
        · exact hm
        · exact nodupSnoc hm (by assumption))
    doc.entries [] (by simp)
  exact h

/-- Every pair stored in `entries_by_id` maps an id to a record carrying
that id. -/
theorem entriesById_id_eq (doc : KgmlDoc) :
    ∀ p ∈ (collect_entry_data doc).entriesById, p.2.id = p.1 := by
  have h := foldl_preserve
    (P := fun m : List (String × EntryData) => ∀ p ∈ m, p.2.id = p.1)
    (f := updStep entryDatum)
    (fun m e hm => by
      rcases he : entryDatum e with _ | ⟨k, d⟩
      · simpa [updStep, he] using hm
      · simp only [updStep, he]
        intro p hp
        rcases assocUpd_mem k d m p hp with h | h
        · exact hm p h
        · rw [h]
          exact entryDatum_id e k d he)
    doc.entries [] (by intro p hp; cases hp)
  exact h

/-- C3, KGML last-wins: looking up an id in `entries_by_id` yields the
data record of the LAST entry in document order carrying that id (a later
duplicate silently overwrites the earlier one's attributes). -/
theorem entriesById_lookup_lastWins (doc : KgmlDoc) (k : String) :
    assocLookup (collect_entry_data doc).entriesById k
      = lastValue k (doc.entries.filterMap entryDatum) := by
  have h0 : (collect_entry_data doc).entriesById
      = doc.entries.foldl (updStep entryDatum) [] := rfl
  rw [h0, foldl_updStep_eq entryDatum doc.entries [], foldl_assocUpd_lookup]
  rcases lastValue k (doc.entries.filterMap entryDatum) with _ | v <;> rfl

theorem foldl_min_le_init : ∀ (t : List Rat) (a : Rat), t.foldl min a ≤ a
  | [], a => le_refl a
  | x :: t, a => le_trans (foldl_min_le_init t (min a x)) (min_le_left a x)

theorem foldl_min_le_mem : ∀ (t : List Rat) (a x : Rat), x ∈ t → t.foldl min a ≤ x
  | y :: t, a, x, h => by
    rcases List.mem_cons.1 h with rfl | h
    · exact le_trans (foldl_min_le_init t (min a x)) (min_le_right a x)
    · exact foldl_min_le_mem t (min a y) x h

/-- Python `min` of a list bounds every member from below. -/
theorem pyMin_le (l : List Rat) (x : Rat) (h : x ∈ l) : pyMin l ≤ x := by
  rcases l with _ | ⟨a, t⟩
  · cases h
  · rcases List.mem_cons.1 h with rfl | h
    · exact foldl_min_le_init t x
    · exact foldl_min_le_mem t a x h

theorem init_le_foldl_max : ∀ (t : List Rat) (a : Rat), a ≤ t.foldl max a
  | [], a => le_refl a
  | x :: t, a => le_trans (le_max_left a x) (init_le_foldl_max t (max a x))

theorem mem_le_foldl_max : ∀ (t : List Rat) (a x : Rat), x ∈ t → x ≤ t.foldl max a
  | y :: t, a, x, h => by
    rcases List.mem_cons.1 h with rfl | h
    · exact le_trans (le_max_right a x) (init_le_foldl_max t (max a x))
    · exact mem_le_foldl_max t (max a y) x h

/-- Python `max` of a list bounds every member from above. -/
theorem le_pyMax (l : List Rat) (x : Rat) (h : x ∈ l) : x ≤ pyMax l := by
  rcases l with _ | ⟨a, t⟩
  · cases h
  · rcases List.mem_cons.1 h with rfl | h
    · exact init_le_foldl_max t x
    · exact mem_le_foldl_max t a x h

/-- One normalized coordinate stays inside the padded viewport. -/
theorem coordBound (v minv maxv rangev scale bound : Rat)
    (hmin : minv ≤ v) (hmax : v ≤ maxv) (hrange : maxv - minv ≤ rangev)
    (hrpos : 0 < rangev) (hspos : 0 ≤ scale) (hs : scale ≤ bound / rangev) :
    80 ≤ (v - minv) * scale + 80 ∧ (v - minv) * scale + 80 ≤ bound + 80 := by
  constructor
  · have h1 : 0 ≤ (v - minv) * scale := mul_nonneg (sub_nonneg.2 hmin) hspos
    linarith
  · have h1 : v - minv ≤ rangev := le_trans (by linarith) hrange
    have h2 : (v - minv) * scale ≤ rangev * (bound / rangev) :=
      mul_le_mul h1 hs hspos (le_of_lt hrpos)
    have h3 : rangev * (bound / rangev) = bound := by
      rw [mul_comm, div_mul_cancel₀ _ (ne_of_gt hrpos)]
    linarith

/-- C8: for every KGML document with more than one compound node, the
applied scale factor is min((width-2·padding)/max(rangeX,1),
(height-2·padding)/max(rangeY,1), 5.0) — in particular at most 5.0 —
every compound coordinate is mapped to (old − min)·scale + padding, and
every normalized x lies in [padding, width−padding] and every normalized
y in [padding, height−padding] for the viewport (1200, 900) and
padding 80 (bounds exact over rational arithmetic). -/
theorem C8_theorem (doc : KgmlDoc) (h : 1 < (kgmlCompoundEntries doc).length) :
    kgmlScale (kgmlCompoundEntries doc) ≤ 5 ∧
    kgmlNormalizedCompounds doc = (kgmlCompoundEntries doc).map (fun p => (p.1,
      { p.2 with
          x := (p.2.x - pyMin ((kgmlCompoundEntries doc).map (fun q => q.2.x)))
                 * kgmlScale (kgmlCompoundEntries doc) + 80,
          y := (p.2.y - pyMin ((kgmlCompoundEntries doc).map (fun q => q.2.y)))
                 * kgmlScale (kgmlCompoundEntries doc) + 80 })) ∧
    ∀ p ∈ kgmlNormalizedCompounds doc,
      80 ≤ p.2.x ∧ p.2.x ≤ 1200 - 80 ∧ 80 ≤ p.2.y ∧ p.2.y ≤ 900 - 80 := by
  have hnil : (kgmlCompoundEntries doc).map (fun q => q.2.x) ≠ [] := by
    intro hc
    rw [List.map_eq_nil_iff] at hc
    rw [hc] at h
    exact absurd h (by decide)
  have hscale : kgmlScale (kgmlCompoundEntries doc) ≤ 5 := by
    simp only [kgmlScale]
    exact min_le_right _ 5
  have hmap : kgmlNormalizedCompounds doc = (kgmlCompoundEntries doc).map (fun p => (p.1,
      { p.2 with
          x := (p.2.x - pyMin ((kgmlCompoundEntries doc).map (fun q => q.2.x)))
                 * kgmlScale (kgmlCompoundEntries doc) + 80,
          y := (p.2.y - pyMin ((kgmlCompoundEntries doc).map (fun q => q.2.y)))
                 * kgmlScale (kgmlCompoundEntries doc) + 80 })) := by
    simp only [kgmlNormalizedCompounds, normalize_coordinates, kgmlScale]
    rw [if_neg hnil]
  refine ⟨hscale, hmap, ?_⟩
  intro p hp
  rw [hmap] at hp
  rcases List.mem_map.1 hp with ⟨q, hq, rfl⟩
  dsimp only
  set l := kgmlCompoundEntries doc with hl
  have hxq : q.2.x ∈ l.map (fun q => q.2.x) := List.mem_map_of_mem _ hq
  have hyq : q.2.y ∈ l.map (fun q => q.2.y) := List.mem_map_of_mem _ hq
  have hrxpos : (0 : Rat) < max (pyMax (l.map (fun q => q.2.x)) - pyMin (l.map (fun q => q.2.x))) 1 :=
    lt_of_lt_of_le zero_lt_one (le_max_right _ 1)
  have hrypos : (0 : Rat) < max (pyMax (l.map (fun q => q.2.y)) - pyMin (l.map (fun q => q.2.y))) 1 :=
    lt_of_lt_of_le zero_lt_one (le_max_right _ 1)
  have hspos : (0 : Rat) ≤ kgmlScale l := by
    simp only [kgmlScale]
    refine le_min (le_min ?_ ?_) (by norm_num)
    · exact le_of_lt (div_pos (by norm_num) hrxpos)
    · exact le_of_lt (div_pos (by norm_num) hrypos)
  have hsx : kgmlScale l ≤ (1200 - 2 * 80) / max (pyMax (l.map (fun q => q.2.x)) - pyMin (l.map (fun q => q.2.x))) 1 := by
    simp only [kgmlScale]
    exact le_trans (min_le_left _ 5) (min_le_left _ _)
  have hsy : kgmlScale l ≤ (900 - 2 * 80) / max (pyMax (l.map (fun q => q.2.y)) - pyMin (l.map (fun q => q.2.y))) 1 := by
    simp only [kgmlScale]
    exact le_trans (min_le_left _ 5) (min_le_right _ _)
  have hx := coordBound q.2.x (pyMin (l.map (fun q => q.2.x))) (pyMax (l.map (fun q => q.2.x)))
    (max (pyMax (l.map (fun q => q.2.x)) - pyMin (l.map (fun q => q.2.x))) 1)
    (kgmlScale l) (1200 - 2 * 80)
    (pyMin_le _ _ hxq) (le_pyMax _ _ hxq) (le_max_left _ 1) hrxpos hspos hsx
  have hy := coordBound q.2.y (pyMin (l.map (fun q => q.2.y))) (pyMax (l.map (fun q => q.2.y)))
    (max (pyMax (l.map (fun q => q.2.y)) - pyMin (l.map (fun q => q.2.y))) 1)
    (kgmlScale l) (900 - 2 * 80)
    (pyMin_le _ _ hyq) (le_pyMax _ _ hyq) (le_max_left _ 1) hrypos hspos hsy
  refine ⟨hx.1, ?_, hy.1, ?_⟩
  · have := hx.2
    linarith
  · have := hy.2
    linarith

/-- C5: a KGML document whose only reaction has id `rid` (nonempty), type
`reversible`, exactly one accepted substrate `a` and one accepted product
`b` with `a ≠ b`, both of which are emitted compound nodes, yields exactly
two edges: `rid:a->b` and `rid_rev:b->a` (ids after safe-character
substitution of the reaction id), both with `reversible = true`. -/
theorem C5_theorem (doc : KgmlDoc) (hide : Bool) (r : KgmlReaction) (rid a b : String)
    (hreactions : doc.reactions = [r])
    (hrid : r.id = some rid) (hridne : rid ≠ "")
    (htype : r.type = some "reversible")
    (hsub : r.substrates.filterMap (fun s => truthy s.id) = [a])
    (hprod : r.products.filterMap (fun p => truthy p.id) = [b])
    (hab : a ≠ b)
    (ha : a ∈ kgmlNodeIds doc hide) (hb : b ∈ kgmlNodeIds doc hide) :
    (translate_kgml_to_graph doc hide).edges.map (fun e => (e.id, e.source, e.target, e.reversible))
      = [(reaction_edge_id rid a b, a, b, true),
         (reaction_edge_id (rid ++ "_rev") b a, b, a, true)] := by
  have hcond : ¬(([a] : List String) = [] ∨ ([b] : List String) = []) := by simp
  have hpair : ¬(a ∉ kgmlNodeIds doc hide ∨ b ∉ kgmlNodeIds doc hide) := by
    rintro (hc | hc)
    · exact hc ha
    · exact hc hb
  have hkey1 : ((rid, a, b) : String × String × String)
      ∉ (([], []) : List (String × String × String) × List ReactionEdge).1 :=
    List.not_mem_nil _
  have hkey2 : ((rid, b, a) : String × String × String)
      ∉ (([] : List (String × String × String)) ++ [(rid, a, b)]) := by
    simp only [List.nil_append, List.mem_singleton]
    intro hc
    exact hab (congrArg (fun q => q.2.1) hc).symm
  have hedges : kgmlEdgesPre doc hide
      = [mkKgmlForward rid (r.name.getD "") true
           (extract_enzyme_labels rid
             (if ((pySplitWs (r.name.getD "")).filter (fun t => pyStarts t "rn:")) = []
              then (if rid ≠ "" then [rid] else [])
              else (pySplitWs (r.name.getD "")).filter (fun t => pyStarts t "rn:"))
             (collect_entry_data doc).reactionLookup (collect_entry_data doc).entriesById)
           (collect_entry_data doc).typeLookup a b,
         mkKgmlReverse rid (r.name.getD "")
           (extract_enzyme_labels rid
             (if ((pySplitWs (r.name.getD "")).filter (fun t => pyStarts t "rn:")) = []
              then (if rid ≠ "" then [rid] else [])
              else (pySplitWs (r.name.getD "")).filter (fun t => pyStarts t "rn:"))
             (collect_entry_data doc).reactionLookup (collect_entry_data doc).entriesById)
           (collect_entry_data doc).typeLookup a b] := by
    simp only [kgmlEdgesPre, hreactions, List.foldl_cons, List.foldl_nil, kgmlReactionStep,
      hrid, htype, hsub, hprod, Option.getD_some, beq_self_eq_true]
    rw [if_neg hcond]
    simp only [List.flatMap_cons, List.map_cons, List.map_nil, List.flatMap_nil,
      List.append_nil, List.foldl_cons, List.foldl_nil, kgmlPairStep]
    rw [if_neg hpair, if_neg hkey1]
    simp only [if_true]
    rw [if_neg hkey2]
    simp
  cases hide
  · have h0 : (translate_kgml_to_graph doc false).edges = kgmlEdgesPre doc false := rfl
    rw [h0, hedges]
    simp only [List.map_cons, List.map_nil, mkKgmlForward, mkKgmlReverse, pyOrS]
    rw [if_neg hridne]
  · have hfilterid : (kgmlNodesPre doc true).filter (fun n => !n.is_cofactor)
        = kgmlNodesPre doc true :=
      List.filter_eq_self.2 (fun n hn => by simp [kgmlNodesPre_false_all doc n hn])
    have h0 : (translate_kgml_to_graph doc true).edges
        = (kgmlEdgesPre doc true).filter (fun e =>
            decide (e.source ∈ ((kgmlNodesPre doc true).filter
              (fun n => !n.is_cofactor)).map (fun n => n.id)) &&
            decide (e.target ∈ ((kgmlNodesPre doc true).filter
              (fun n => !n.is_cofactor)).map (fun n => n.id))) := rfl
    have hkeep : ∀ e ∈ kgmlEdgesPre doc true,
        (decide (e.source ∈ ((kgmlNodesPre doc true).filter
              (fun n => !n.is_cofactor)).map (fun n => n.id)) &&
         decide (e.target ∈ ((kgmlNodesPre doc true).filter
              (fun n => !n.is_cofactor)).map (fun n => n.id))) = true := by
      intro e he
      rw [hedges] at he
      rw [hfilterid]
      rcases List.mem_cons.1 he with rfl | he
      · simp only [mkKgmlForward]
        rw [Bool.and_eq_true]
        exact ⟨decide_eq_true ha, decide_eq_true hb⟩
      · rcases List.mem_singleton.1 he with rfl
        simp only [mkKgmlReverse]
        rw [Bool.and_eq_true]
        exact ⟨decide_eq_true hb, decide_eq_true ha⟩
    rw [h0, List.filter_eq_self.2 hkeep, hedges]
    simp only [List.map_cons, List.map_nil, mkKgmlForward, mkKgmlReverse, pyOrS]
    rw [if_neg hridne]

/-- A generic XML element for the SBML pipeline: tag (possibly
namespace-qualified as `\x7bns\x7dlocal`), attribute list, children. -/
inductive XmlElem : Type where
  | mk (tag : String) (attrs : List (String × String)) (children : List XmlElem)

def XmlElem.tag : XmlElem → String
  | .mk t _ _ => t

def XmlElem.attrs : XmlElem → List (String × String)
  | .mk _ a _ => a

def XmlElem.children : XmlElem → List XmlElem
  | .mk _ _ c => c

/-- Python `elem.attrib.get(k)`. -/
def XmlElem.attr (e : XmlElem) (k : String) : Option String := assocLookup e.attrs k

/-- Model of translator.py `_local_tag_name` (lines 68-69): the part after
the first `\x7d` when the tag starts with `\x7b`, the whole tag
otherwise. -/
def local_tag_name (tag : String) : String :=
  if pyStarts tag "\x7b" then
    match charsBreak ['\x7d'] tag.data with
    | some (_, post) => String.mk post
    | none => tag
  else tag

/-- Python `root.iter()`: the element itself followed by all descendants
in document order. -/
def xmlIter : XmlElem → List XmlElem
  | .mk t a cs => .mk t a cs :: xmlIterList cs
where xmlIterList : List XmlElem → List XmlElem
  | [] => []
  | c :: cs => xmlIter c ++ xmlIterList cs

/-- Model of translator.py `_iter_local_elements` (lines 72-73). -/
def iter_local_elements (root : XmlElem) (tag_name : String) : List XmlElem :=
  (xmlIter root).filter (fun node => local_tag_name node.tag == tag_name)

/-- The per-species record `build_metabolic_graph_from_sbml` stores. -/
structure SpeciesData where
  id : String
  label : String
deriving DecidableEq

/-- The species identifier and record for one `species` element (lines
374-383): the `id` attribute, or the `name` attribute when `id` is
missing or empty; `none` when both are falsy.  The label defaults to the
identifier only when the `name` attribute is absent. -/
def speciesDatum (sp : XmlElem) : Option (String × SpeciesData) :=
  match (match truthy (sp.attr "id") with
         | some s => some s
         | none => truthy (sp.attr "name")) with
  | none => none
  | some species_id =>
    some (species_id, { id := species_id, label := (sp.attr "name").getD species_id })

/-- One step of the species loop: first occurrence of an id wins, a later
duplicate is skipped. -/
def speciesStep (m : List (String × SpeciesData)) (sp : XmlElem) :
    List (String × SpeciesData) :=
  match speciesDatum sp with
  | none => m
  | some (k, d) => if k ∈ m.map Prod.fst then m else m ++ [(k, d)]

/-- The `species_nodes` dict (lines 373-383). -/
def sbmlSpeciesAssoc (root : XmlElem) : List (String × SpeciesData) :=
  (iter_local_elements root "species").foldl speciesStep []

/-- The node list of the SBML pipeline (lines 388-407).  The source
places node `index` at `center + radius·(cos θ, sin θ)` with
`θ = index · 2π / max(count, 1)` and `radius = min(560, max(170,
count·28))` in floating point; that trigonometric placement is
transcendental and no claim depends on it, so the embedding abstracts it
as a parameter `place` mapping (index, count) to the coordinate pair. -/
def sbmlNodesFrom (place : Nat → Nat → Rat × Rat) (count : Nat) :
    Nat → List (String × SpeciesData) → List MetaboliteNode
  | _, [] => []
  | index, (k, d) :: rest =>
    { id := d.id, label := d.label,
      x := (place index count).1, y := (place index count).2,
      type := "metabolite", is_cofactor := false, raw_id := some k,
      metadata := [("original_type", "sbml_species")] }
    :: sbmlNodesFrom place count (index + 1) rest

def sbmlNodes (place : Nat → Nat → Rat × Rat)
    (species_nodes : List (String × SpeciesData)) : List MetaboliteNode :=
  sbmlNodesFrom place species_nodes.length 0 species_nodes

/-- Gathering of `speciesReference/@species` under the direct children
with a given local tag (lines 418-430). -/
def collectRefs (r : XmlElem) (listTag : String) : List String :=
  (r.children.filter (fun c => local_tag_name c.tag == listTag)).flatMap (fun c =>
    (c.children.filter (fun ref => local_tag_name ref.tag == "speciesReference")).filterMap
      (fun ref => truthy (ref.attr "species")))

/-- The forward SBML edge (lines 445-459). -/
def mkSbmlForward (rid rname : String) (rev : Bool) (substrate product : String) :
    ReactionEdge :=
  { id := rid ++ ":" ++ substrate ++ "->" ++ product,
    source := substrate, target := product,
    label := reaction_display_label rname rid,
    reaction_id := rid, reaction_name := rname,
    status := "normal", reversible := rev, enzymes := [], annot := "",
    metadata := [("kgml_type", "sbml_reaction"), ("source_id", rid)] }

/-- The backward SBML edge of a reversible reaction (lines 460-479);
`substrate`/`product` are the original pair, the edge swaps them. -/
def mkSbmlReverse (rid rname : String) (substrate product : String) : ReactionEdge :=
  { id := rid ++ "_rev:" ++ product ++ "->" ++ substrate,
    source := product, target := substrate,
    label := reaction_display_label rname rid,
    reaction_id := rid, reaction_name := rname,
    status := "normal", reversible := true, enzymes := [], annot := "",
    metadata := [("kgml_type", "sbml_reaction"), ("source_id", rid)] }

/-- One iteration of the substrate × product loop of the SBML pipeline
(lines 435-479): note that the backward edge is deduplicated under the
`_rev`-suffixed reaction id, unlike the KGML pipeline. -/
def sbmlPairStep (rid rname : String) (rev : Bool) (speciesKeys : List String)
    (st : List (String × String × String) × List ReactionEdge)
    (p : String × String) : List (String × String × String) × List ReactionEdge :=
  let substrate := p.1
  let product := p.2
  if substrate ∉ speciesKeys ∨ product ∉ speciesKeys then st
  else if substrate = product then st
  else if (rid, substrate, product) ∈ st.1 then st
  else
    let seen := st.1 ++ [(rid, substrate, product)]
    let edges := st.2 ++ [mkSbmlForward rid rname rev substrate product]
    if rev then
      if (rid ++ "_rev", product, substrate) ∈ seen then (seen, edges)
      else (seen ++ [(rid ++ "_rev", product, substrate)],
            edges ++ [mkSbmlReverse rid rname substrate product])
    else (seen, edges)

/-- Processing of one `reaction` element of the SBML pipeline (lines
411-479). -/
def sbmlReactionStep (speciesKeys : List String)
    (st : List (String × String × String) × List ReactionEdge)
    (r : XmlElem) : List (String × String × String) × List ReactionEdge :=
  let reaction_id :=
    match truthy (r.attr "id") with
    | some s => s
    | none =>
      match truthy (r.attr "name") with
      | some s => s
      | none => "reaction"
  let reaction_name := (r.attr "name").getD reaction_id
  let reversible := (["true", "1", "yes"] : List String).contains
    (pyLower ((r.attr "reversible").getD "false"))
  let substrates := collectRefs r "listOfReactants"
  let products := collectRefs r "listOfProducts"
  if substrates = [] ∨ products = [] then st
  else
    (substrates.flatMap (fun s => products.map (fun t => (s, t)))).foldl
      (sbmlPairStep reaction_id reaction_name reversible speciesKeys) st

/-- The edge list of the SBML pipeline (lines 409-479). -/
def sbmlEdges (root : XmlElem) (species_nodes : List (String × SpeciesData)) :
    List ReactionEdge :=
  ((iter_local_elements root "reaction").foldl
    (sbmlReactionStep (species_nodes.map Prod.fst)) ([], [])).2

/-- The summary metadata of the SBML response (node/edge counts and the
provenance tag, integer-valued in the source). -/
structure ResponseMeta where
  node_count : Nat
  edge_count : Nat
  source : String
deriving DecidableEq

/-- The response record of models.py `PathwayResponse` as the SBML
pipeline fills it. -/
structure PathwayResponse where
  pathway_id : String
  pathway_name : String
  nodes : List MetaboliteNode
  edges : List ReactionEdge
  metadata : ResponseMeta
deriving DecidableEq

/-- The three RuntimeError messages `build_metabolic_graph_from_sbml` can
raise: invalid SBML file, no species found, no valid reactions found. -/
inductive SbmlError : Type where
  | invalidSbml
  | noSpecies
  | noEdges
deriving DecidableEq

/-- Model of translator.py `build_metabolic_graph_from_sbml` (lines
367-494).  The input is `none` when `ET.fromstring` raises (unparsable
XML), otherwise the parsed element tree. -/
def build_metabolic_graph_from_sbml (place : Nat → Nat → Rat × Rat) :
    Option XmlElem → Except SbmlError PathwayResponse
  | none => .error .invalidSbml
  | some root =>
    let species_nodes := sbmlSpeciesAssoc root
    if species_nodes = [] then .error .noSpecies
    else
      let nodes := sbmlNodes place species_nodes
      let edges := sbmlEdges root species_nodes
      if edges = [] then .error .noEdges
      else .ok
        { pathway_id := "sbml_import", pathway_name := "SBML import",
          nodes := nodes, edges := edges,
          metadata := { node_count := nodes.length, edge_count := edges.length,
                        source := "sbml_import" } }

/-- Lookup in an association list extended on the right by one pair. -/
theorem assocLookup_append_single {α : Type} (k : String) (q : String × α) :
    ∀ m : List (String × α),
      assocLookup (m ++ [q]) k
        = match assocLookup m k with
          | some v => some v
          | none => if q.1 = k then some q.2 else none
  | [] => by simp [assocLookup]
  | (k', v') :: m => by
    by_cases h : k' = k <;>
      simp [assocLookup, h, assocLookup_append_single k q m]

/-- A lookup misses exactly when the key is absent. -/
theorem assocLookup_none_iff {α : Type} (k : String) :
    ∀ m : List (String × α), assocLookup m k = none ↔ k ∉ m.map Prod.fst
  | [] => by simp [assocLookup]
  | (k', v') :: m => by
    by_cases h : k' = k
    · subst h
      simp [assocLookup]
    · have h1 : assocLookup ((k', v') :: m) k = assocLookup m k := by
        simp [assocLookup, h]
      rw [h1, assocLookup_none_iff k m]
      constructor
      · intro hk hc
        rcases List.mem_cons.1 hc with hc | hc
        · exact h hc.symm
        · exact hk hc
      · intro hk hc
        exact hk (List.mem_cons_of_mem _ hc)

/-- The value of the first pair carrying key `k` in a pair list. -/
def firstValue {α : Type} (k : String) : List (String × α) → Option α
  | [] => none
  | q :: l => if q.1 = k then some q.2 else firstValue k l

/-- Folding first-wins insertions over a pair list: the lookup afterwards
sees whatever the initial dict had, else the FIRST pair with the key. -/
theorem foldl_firstWins_lookup {α : Type} (k : String) :
    ∀ (l m : List (String × α)),
      assocLookup (l.foldl
          (fun acc q => if q.1 ∈ acc.map Prod.fst then acc else acc ++ [q]) m) k
        = match assocLookup m k with
          | some v => some v
          | none => firstValue k l
  | [], m => by
    rcases hm : assocLookup m k with _ | v <;> simp [hm, firstValue]
  | q :: l, m => by
    rw [List.foldl_cons,
      foldl_firstWins_lookup k l (if q.1 ∈ m.map Prod.fst then m else m ++ [q])]
    by_cases hq : q.1 ∈ m.map Prod.fst
    · rw [if_pos hq]
      rcases hm : assocLookup m k with _ | v
      · have hk : k ∉ m.map Prod.fst := (assocLookup_none_iff k m).1 hm
        have hqk : ¬ q.1 = k := fun h => hk (h ▸ hq)
        simp [hm, firstValue, hqk]
      · simp [hm]
    · rw [if_neg hq, assocLookup_append_single]
      rcases hm : assocLookup m k with _ | v
      · by_cases hqk : q.1 = k <;> simp [hm, firstValue, hqk]
      · simp [hm]

/-- The species loop is a fold of first-wins insertions over the
per-species data. -/
theorem foldl_speciesStep_eq :
    ∀ (l : List XmlElem) (m : List (String × SpeciesData)),
      l.foldl speciesStep m
        = (l.filterMap speciesDatum).foldl
            (fun acc q => if q.1 ∈ acc.map Prod.fst then acc else acc ++ [q]) m
  | [], _ => rfl
  | sp :: l, m => by
    rcases h : speciesDatum sp with _ | ⟨k, d⟩ <;>
      simp [speciesStep, h, List.filterMap_cons, foldl_speciesStep_eq l]

/-- C3, SBML first-wins: looking up an id in `species_nodes` yields the
record of the FIRST species element in document order carrying that id
(later duplicates are silently skipped). -/
theorem sbmlSpecies_lookup_firstWins (root : XmlElem) (k : String) :
    assocLookup (sbmlSpeciesAssoc root) k
      = firstValue k ((iter_local_elements root "species").filterMap speciesDatum) := by
  have h0 : sbmlSpeciesAssoc root = (iter_local_elements root "species").foldl speciesStep [] :=
    rfl
  rw [h0, foldl_speciesStep_eq, foldl_firstWins_lookup]
  rfl

/-- C3, SBML uniqueness: the species ids are pairwise distinct. -/
theorem sbmlSpeciesAssoc_fst_nodup (root : XmlElem) :
    ((sbmlSpeciesAssoc root).map Prod.fst).Nodup := by
  have h := foldl_preserve
    (P := fun m : List (String × SpeciesData) => (m.map Prod.fst).Nodup)
    (f := speciesStep)
    (fun m sp hm => by
      rcases h : speciesDatum sp with _ | ⟨k, d⟩
      · simpa [speciesStep, h] using hm
      · simp only [speciesStep, h]
        split
        · exact hm
        · rename_i hnk
          rw [List.map_append]
          exact nodupSnoc hm hnk)
    (iter_local_elements root "species") [] (by simp)
  exact h

/-- The record stored for a species carries the species identifier. -/
theorem speciesDatum_id (sp : XmlElem) (k : String) (d : SpeciesData)
    (h : speciesDatum sp = some (k, d)) : d.id = k := by
  unfold speciesDatum at h
  rcases ht : (match truthy (sp.attr "id") with
               | some s => some s
               | none => truthy (sp.attr "name")) with _ | sid
  · rw [ht] at h; cases h
  · rw [ht] at h
    simp only [Option.some.injEq, Prod.mk.injEq] at h
    obtain ⟨hk, hd⟩ := h
    rw [← hd, ← hk]

/-- Every pair stored in `species_nodes` maps an id to a record carrying
that id. -/
theorem sbmlSpeciesAssoc_id_eq (root : XmlElem) :
    ∀ p ∈ sbmlSpeciesAssoc root, p.2.id = p.1 := by
  have h := foldl_preserve
    (P := fun m : List (String × SpeciesData) => ∀ p ∈ m, p.2.id = p.1)
    (f := speciesStep)
    (fun m sp hm => by
      rcases h : speciesDatum sp with _ | ⟨k, d⟩
      · simpa [speciesStep, h] using hm
      · simp only [speciesStep, h]
        split
        · exact hm
        · intro p hp
          rcases List.mem_append.1 hp with hp | hp
          · exact hm p hp
          · rcases List.mem_singleton.1 hp with rfl
            exact speciesDatum_id sp k d h)
    (iter_local_elements root "species") [] (by intro p hp; cases hp)
  exact h

/-- The SBML node list carries the species record ids, in order. -/
theorem sbmlNodesFrom_ids (place : Nat → Nat → Rat × Rat) (count : Nat) :
    ∀ (i : Nat) (l : List (String × SpeciesData)),
      (sbmlNodesFrom place count i l).map (fun n => n.id) = l.map (fun q => q.2.id)
  | _, [] => rfl
  | i, (k, d) :: rest => by
    simp [sbmlNodesFrom, sbmlNodesFrom_ids place count (i + 1) rest]

/-- The SBML node ids are exactly the species dict keys. -/
theorem sbmlNodes_ids (place : Nat → Nat → Rat × Rat) (root : XmlElem) :
    (sbmlNodes place (sbmlSpeciesAssoc root)).map (fun n => n.id)
      = (sbmlSpeciesAssoc root).map Prod.fst := by
  rw [sbmlNodes, sbmlNodesFrom_ids]
  exact List.map_congr_left (fun p hp => sbmlSpeciesAssoc_id_eq root p hp)

/-- Every SBML node is built with `is_cofactor = false`. -/
theorem sbmlNodesFrom_cof (place : Nat → Nat → Rat × Rat) (count : Nat) :
    ∀ (i : Nat) (l : List (String × SpeciesData)),
      ∀ n ∈ sbmlNodesFrom place count i l, n.is_cofactor = false
  | _, [], _, hn => absurd hn (List.not_mem_nil _)
  | i, (k, d) :: rest, n, hn => by
    rcases List.mem_cons.1 hn with rfl | hn
    · rfl
    · exact sbmlNodesFrom_cof place count (i + 1) rest n hn

/-- Invariant threaded through the SBML reaction loop: endpoints are
species keys and the enzyme list is empty. -/
def SbmlEdgeInv (keys : List String)
    (st : List (String × String × String) × List ReactionEdge) : Prop :=
  ∀ e ∈ st.2, (e.source ∈ keys ∧ e.target ∈ keys) ∧ e.enzymes = []

theorem sbmlPairStep_inv (rid rname : String) (rev : Bool) (keys : List String)
    (st : List (String × String × String) × List ReactionEdge) (p : String × String)
    (h : SbmlEdgeInv keys st) : SbmlEdgeInv keys (sbmlPairStep rid rname rev keys st p) := by
  simp only [sbmlPairStep]
  split
  · exact h
  split
  · exact h
  split
  · exact h
  rename_i hmem hne hk
  have hin : p.1 ∈ keys ∧ p.2 ∈ keys := by
    constructor
    · by_contra hc; exact hmem (Or.inl hc)
    · by_contra hc; exact hmem (Or.inr hc)
  have base : SbmlEdgeInv keys
      (st.1 ++ [(rid, p.1, p.2)], st.2 ++ [mkSbmlForward rid rname rev p.1 p.2]) := by
    intro e he
    rcases List.mem_append.1 he with he | he
    · exact h e he
    · rcases List.mem_singleton.1 he with rfl
      exact ⟨hin, rfl⟩
  split
  · split
    · exact base
    · intro e he
      rcases List.mem_append.1 he with he | he
      · exact base e he
      · rcases List.mem_singleton.1 he with rfl
        exact ⟨⟨hin.2, hin.1⟩, rfl⟩
  · exact base

theorem sbmlReactionStep_inv (keys : List String)
    (st : List (String × String × String) × List ReactionEdge) (r : XmlElem)
    (h : SbmlEdgeInv keys st) : SbmlEdgeInv keys (sbmlReactionStep keys st r) := by
  simp only [sbmlReactionStep]
  split
  · exact h
  · exact foldl_preserve (fun s p hp => sbmlPairStep_inv _ _ _ _ s p hp) _ _ h

/-- Every edge emitted by the SBML pipeline has both endpoints among the
species keys and an empty enzyme list. -/
theorem sbmlEdges_inv (root : XmlElem) (sn : List (String × SpeciesData)) :
    ∀ e ∈ sbmlEdges root sn,
      (e.source ∈ sn.map Prod.fst ∧ e.target ∈ sn.map Prod.fst) ∧ e.enzymes = [] := by
  have h0 : SbmlEdgeInv (sn.map Prod.fst)
      (([], []) : List (String × String × String) × List ReactionEdge) :=
    fun e he => absurd he (List.not_mem_nil e)
  exact foldl_preserve (fun s r hp => sbmlReactionStep_inv _ s r hp)
    (iter_local_elements root "reaction") ([], []) h0

/-- Coordinate normalization does not touch the stored ids (keys). -/
theorem normalize_coordinates_fst (l : List (String × EntryData)) :
    (normalize_coordinates l).map Prod.fst = l.map Prod.fst := by
  simp only [normalize_coordinates]
  split
  · rfl
  · simp [List.map_map, Function.comp]

/-- Coordinate normalization does not touch the id field of the records. -/
theorem normalize_coordinates_id_eq (l : List (String × EntryData))
    (h : ∀ p ∈ l, p.2.id = p.1) :
    ∀ p ∈ normalize_coordinates l, p.2.id = p.1 := by
  simp only [normalize_coordinates]
  split
  · exact h
  · intro p hp
    rcases List.mem_map.1 hp with ⟨q, hq, rfl⟩
    exact h q hq

/-- Node ids produced by a skipping construction form a sublist of the
source keys. -/
theorem filterMap_ids_sublist (F : (String × EntryData) → Option MetaboliteNode)
    (hF : ∀ p n, F p = some n → n.id = p.2.id) :
    ∀ l : List (String × EntryData), (∀ p ∈ l, p.2.id = p.1) →
      List.Sublist ((l.filterMap F).map (fun n => n.id)) (l.map Prod.fst)
  | [], _ => by simp
  | p :: l, h => by
    have hrest := filterMap_ids_sublist F hF l (fun q hq => h q (List.mem_cons_of_mem p hq))
    rcases hFp : F p with _ | n
    · simp only [List.filterMap_cons, hFp, List.map_cons]
      exact hrest.cons _
    · simp only [List.filterMap_cons, hFp, List.map_cons]
      rw [hF p n hFp, h p (List.mem_cons_self p l)]
      exact hrest.cons₂ _

/-- C3, KGML uniqueness at the node level: the emitted node ids are
pairwise distinct. -/
theorem kgmlNodesPre_ids_nodup (doc : KgmlDoc) (hide : Bool) :
    ((kgmlNodesPre doc hide).map (fun n => n.id)).Nodup := by
  have hCids : ∀ p ∈ kgmlCompoundEntries doc, p.2.id = p.1 := by
    intro p hp
    exact entriesById_id_eq doc p (List.mem_of_mem_filter hp)
  have hNids : ∀ p ∈ kgmlNormalizedCompounds doc, p.2.id = p.1 :=
    normalize_coordinates_id_eq _ hCids
  have hCfst : ((kgmlCompoundEntries doc).map Prod.fst).Nodup :=
    List.Nodup.sublist (List.Sublist.map Prod.fst (List.filter_sublist _))
      (entriesById_fst_nodup doc)
  have hNfst : ((kgmlNormalizedCompounds doc).map Prod.fst).Nodup := by
    rw [kgmlNormalizedCompounds, normalize_coordinates_fst]
    exact hCfst
  have hF : ∀ (p : String × EntryData) (n : MetaboliteNode),
      (if hide && is_cofactor p.2.name p.2.label then none
       else some
        ({ id := p.2.id, label := p.2.label, x := p.2.x, y := p.2.y,
           type := "metabolite", is_cofactor := is_cofactor p.2.name p.2.label,
           raw_id := some p.2.name,
           metadata := [("original_type", p.2.type), ("entry_name", p.2.name)] }
          : MetaboliteNode)) = some n → n.id = p.2.id := by
    intro p n h
    split at h
    · cases h
    · injection h with h
      rw [← h]
  have hsub := filterMap_ids_sublist _ hF (kgmlNormalizedCompounds doc) hNids
  exact List.Nodup.sublist hsub hNfst

/-- Node ids of the final KGML response are pairwise distinct. -/
theorem kgmlTranslate_ids_nodup (doc : KgmlDoc) (hide : Bool) :
    (((translate_kgml_to_graph doc hide).nodes).map (fun n => n.id)).Nodup := by
  cases hide
  · exact kgmlNodesPre_ids_nodup doc false
  · exact List.Nodup.sublist (List.Sublist.map _ (List.filter_sublist _))
      (kgmlNodesPre_ids_nodup doc true)

/-- Case analysis of a successful SBML translation: species and edges
nonempty, and the response holds exactly the computed nodes and edges. -/
theorem build_ok_cases (place : Nat → Nat → Rat × Rat) (root : XmlElem)
    (resp : PathwayResponse)
    (h : build_metabolic_graph_from_sbml place (some root) = .ok resp) :
    sbmlSpeciesAssoc root ≠ [] ∧ sbmlEdges root (sbmlSpeciesAssoc root) ≠ [] ∧
    resp.nodes = sbmlNodes place (sbmlSpeciesAssoc root) ∧
    resp.edges = sbmlEdges root (sbmlSpeciesAssoc root) := by
  by_cases hs : sbmlSpeciesAssoc root = []
  · simp [build_metabolic_graph_from_sbml, hs] at h
  · by_cases hedge : sbmlEdges root (sbmlSpeciesAssoc root) = []
    · simp [build_metabolic_graph_from_sbml, hs, hedge] at h
    · rw [show build_metabolic_graph_from_sbml place (some root) = .ok
          { pathway_id := "sbml_import", pathway_name := "SBML import",
            nodes := sbmlNodes place (sbmlSpeciesAssoc root),
            edges := sbmlEdges root (sbmlSpeciesAssoc root),
            metadata := { node_count := (sbmlNodes place (sbmlSpeciesAssoc root)).length,
                          edge_count := (sbmlEdges root (sbmlSpeciesAssoc root)).length,
                          source := "sbml_import" } } from by
        simp [build_metabolic_graph_from_sbml, hs, hedge]] at h
      injection h with h
      exact ⟨hs, hedge, by rw [← h], by rw [← h]⟩

/-- C2: for every input document (KGML with any filter flag, or SBML),
every edge in the returned response has both its source id and its target
id among the ids of the returned node list — no dangling edges, also when
cofactor hiding is requested. -/
theorem C2_theorem :
    (∀ (doc : KgmlDoc) (hide : Bool), ∀ e ∈ (translate_kgml_to_graph doc hide).edges,
      e.source ∈ (translate_kgml_to_graph doc hide).nodes.map (fun n => n.id) ∧
      e.target ∈ (translate_kgml_to_graph doc hide).nodes.map (fun n => n.id)) ∧
    (∀ (place : Nat → Nat → Rat × Rat) (inp : Option XmlElem) (resp : PathwayResponse),
      build_metabolic_graph_from_sbml place inp = .ok resp →
      ∀ e ∈ resp.edges,
        e.source ∈ resp.nodes.map (fun n => n.id) ∧
        e.target ∈ resp.nodes.map (fun n => n.id)) := by
  constructor
  · exact fun doc hide => kgmlTranslate_endpoints doc hide
  · intro place inp resp hok e he
    rcases inp with _ | root
    · cases hok
    · obtain ⟨hs, hedge, hn, hedges⟩ := build_ok_cases place root resp hok
      rw [hedges] at he
      have h := (sbmlEdges_inv root (sbmlSpeciesAssoc root) e he).1
      rw [hn, sbmlNodes_ids]
      exact h

/-- C3 (amended): node ids are unique within one response in both
pipelines; for SBML the first occurrence of a species id wins and a later
duplicate is silently skipped, while for KGML a later duplicate entry
silently OVERWRITES the stored data, so the emitted node carries the
attributes of the LAST occurrence in document order (at the first
occurrence's position) — not the first occurrence's attributes as the
original claim says. -/
theorem C3_theorem :
    (∀ (doc : KgmlDoc) (hide : Bool),
        (((translate_kgml_to_graph doc hide).nodes).map (fun n => n.id)).Nodup) ∧
    (∀ (place : Nat → Nat → Rat × Rat) (inp : Option XmlElem) (resp : PathwayResponse),
        build_metabolic_graph_from_sbml place inp = .ok resp →
        ((resp.nodes).map (fun n => n.id)).Nodup) ∧
    (∀ (doc : KgmlDoc) (k : String),
        assocLookup (collect_entry_data doc).entriesById k
          = lastValue k (doc.entries.filterMap entryDatum)) ∧
    (∀ (root : XmlElem) (k : String),
        assocLookup (sbmlSpeciesAssoc root) k
          = firstValue k ((iter_local_elements root "species").filterMap speciesDatum)) := by
  refine ⟨kgmlTranslate_ids_nodup, ?_, entriesById_lookup_lastWins, sbmlSpecies_lookup_firstWins⟩
  intro place inp resp hok
  rcases inp with _ | root
  · cases hok
  · obtain ⟨hs, hedge, hn, hedges⟩ := build_ok_cases place root resp hok
    rw [hn, sbmlNodes_ids]
    exact sbmlSpeciesAssoc_fst_nodup root

/-- C7: the SBML translation fails with the invalid-SBML error exactly on
unparsable input; on a parsed tree it fails with the no-species error
exactly when zero species were collected (whatever the reactions are, so
that failure precedes all edge processing), fails with the no-edges error
exactly when species exist but zero edges were produced, and returns a
PathwayResponse exactly when species and edges are both nonempty. -/
theorem C7_theorem (place : Nat → Nat → Rat × Rat) (inp : Option XmlElem) :
    (build_metabolic_graph_from_sbml place inp = .error .invalidSbml ↔ inp = none) ∧
    (∀ root, inp = some root →
      ((build_metabolic_graph_from_sbml place inp = .error .noSpecies
          ↔ sbmlSpeciesAssoc root = []) ∧
       (build_metabolic_graph_from_sbml place inp = .error .noEdges
          ↔ (sbmlSpeciesAssoc root ≠ [] ∧ sbmlEdges root (sbmlSpeciesAssoc root) = [])) ∧
       ((∃ resp, build_metabolic_graph_from_sbml place inp = .ok resp)
          ↔ (sbmlSpeciesAssoc root ≠ [] ∧ sbmlEdges root (sbmlSpeciesAssoc root) ≠ [])))) := by
  rcases inp with _ | root
  · constructor
    · simp [build_metabolic_graph_from_sbml]
    · intro root h
      cases h
  · constructor
    · by_cases hs : sbmlSpeciesAssoc root = []
      · simp [build_metabolic_graph_from_sbml, hs]
      · by_cases hedge : sbmlEdges root (sbmlSpeciesAssoc root) = [] <;>
          simp [build_metabolic_graph_from_sbml, hs, hedge]
    · intro root' hroot
      obtain rfl : root' = root := by
        injection hroot with h
        exact h.symm
      by_cases hs : sbmlSpeciesAssoc root' = []
      · simp [build_metabolic_graph_from_sbml, hs]
      · by_cases hedge : sbmlEdges root' (sbmlSpeciesAssoc root') = [] <;>
          simp [build_metabolic_graph_from_sbml, hs, hedge]

/-- C10: every node emitted by the SBML pipeline has `is_cofactor =
false` and every edge emitted by it has an empty enzymes list, for every
input document: cofactor classification and enzyme aggregation are never
applied to SBML input. -/
theorem C10_theorem (place : Nat → Nat → Rat × Rat) (inp : Option XmlElem)
    (resp : PathwayResponse)
    (h : build_metabolic_graph_from_sbml place inp = .ok resp) :
    (∀ n ∈ resp.nodes, n.is_cofactor = false) ∧ (∀ e ∈ resp.edges, e.enzymes = []) := by
  rcases inp with _ | root
  · cases h
  · obtain ⟨hs, hedge, hn, hedges⟩ := build_ok_cases place root resp h
    constructor
    · intro n hn2
      rw [hn] at hn2
      exact sbmlNodesFrom_cof place _ 0 _ n hn2
    · intro e he2
      rw [hedges] at he2
      exact (sbmlEdges_inv root _ e he2).2

/-- Example KGML compound entry "1" (label Alpha). -/
def exEntryA : KgmlEntry :=
  { id := some "1", type := some "compound", name := some "cpd:C90001",
    graphics := some { name := some "Alpha", x := some 10, y := some 20 },
    x := none, y := none, reaction := none }

/-- Example KGML compound entry "2" (label Beta). -/
def exEntryB : KgmlEntry :=
  { id := some "2", type := some "compound", name := some "cpd:C90002",
    graphics := some { name := some "Beta", x := some 30, y := some 40 },
    x := none, y := none, reaction := none }

/-- Example reversible KGML reaction between entries "1" and "2". -/
def exReactionAB : KgmlReaction :=
  { id := some "R1", name := some "rn:R99999", type := some "reversible",
    substrates := [{ id := some "1" }], products := [{ id := some "2" }] }

/-- Example KGML document: two compounds, one reversible reaction. -/
def exDocAB : KgmlDoc :=
  { name := some "path:eco00010", title := some "Example",
    entries := [exEntryA, exEntryB], reactions := [exReactionAB] }

/-- KGML document with two entries sharing the id "5": the first carries
label A, the later duplicate label B. -/
def exEntryDup1 : KgmlEntry :=
  { id := some "5", type := some "compound", name := some "cpd:C90003",
    graphics := some { name := some "A", x := some 0, y := some 0 },
    x := none, y := none, reaction := none }

/-- The duplicate entry, same id "5", label B. -/
def exEntryDup2 : KgmlEntry :=
  { id := some "5", type := some "compound", name := some "cpd:C90003",
    graphics := some { name := some "B", x := some 0, y := some 0 },
    x := none, y := none, reaction := none }

/-- Document with the duplicated entry id. -/
def exDocDup : KgmlDoc :=
  { name := some "path:x", title := none,
    entries := [exEntryDup1, exEntryDup2], reactions := [] }

/-- Claim C3 as stated is false on the KGML pipeline: in a document whose
two entries both carry id "5" — the first with label A, the later
duplicate with label B — the emitted node carries the label B of the
LATER occurrence (the later entry silently overwrites the earlier one),
not the attributes of the first occurrence. -/
theorem C3_counterexample :
    ((translate_kgml_to_graph exDocDup false).nodes.map (fun n => (n.id, n.label)))
      = [("5", "B")] := by
  decide

/-- Example SBML species A. -/
def exSpeciesA : XmlElem := .mk "species" [("id", "A")] []

/-- Example SBML species B. -/
def exSpeciesB : XmlElem := .mk "species" [("id", "B")] []

/-- A reversible SBML reaction `r` with reactants A, B and products A, B. -/
def exReactionSbml : XmlElem :=
  .mk "reaction" [("id", "r"), ("reversible", "true")]
    [ .mk "listOfReactants" []
        [ .mk "speciesReference" [("species", "A")] [],
          .mk "speciesReference" [("species", "B")] [] ],
      .mk "listOfProducts" []
        [ .mk "speciesReference" [("species", "A")] [],
          .mk "speciesReference" [("species", "B")] [] ] ]

/-- The SBML document combining the species and the reaction above. -/
def exRootSbml : XmlElem := .mk "sbml" [] [exSpeciesA, exSpeciesB, exReactionSbml]

/-- A fixed trivial placement for instantiating the layout parameter. -/
def place0 : Nat → Nat → Rat × Rat := fun _ _ => (0, 0)

/-- The edge list of an SBML result, empty on failure. -/
def exceptEdges : Except SbmlError PathwayResponse → List ReactionEdge
  | .ok r => r.edges
  | .error _ => []

/-- Claim C1 as stated is false on the SBML pipeline: for the reversible
reaction `r` with reactants A, B and products A, B, the backward edge of
the pair (A, B) — registered under the dedup key (`r_rev`, B, A) but
carrying reaction_id `r` — coexists with the forward edge of the pair
(B, A), so two edges share the triple (r, B, A). -/
theorem C1_counterexample :
    ¬ (((exceptEdges (build_metabolic_graph_from_sbml place0 (some exRootSbml))).map
        edgeTriple).Nodup) := by
  decide

/-- Decidable equality of translation results (for evaluating concrete
instantiations). -/
instance exceptDecEq {ε α : Type} [DecidableEq ε] [DecidableEq α] :
    DecidableEq (Except ε α) := fun x y =>
  match x, y with
  | .error e, .error e' =>
    if h : e = e' then isTrue (by rw [h])
    else isFalse (fun hc => h (Except.error.inj hc))
  | .error _, .ok _ => isFalse (fun hc => Except.noConfusion hc)
  | .ok _, .error _ => isFalse (fun hc => Except.noConfusion hc)
  | .ok a, .ok b =>
    if h : a = b then isTrue (by rw [h])
    else isFalse (fun hc => h (Except.ok.inj hc))

/-- The response the example SBML document translates to. -/
def exRespSbml : PathwayResponse :=
  match build_metabolic_graph_from_sbml place0 (some exRootSbml) with
  | .ok r => r
  | .error _ =>
    { pathway_id := "", pathway_name := "", nodes := [], edges := [],
      metadata := { node_count := 0, edge_count := 0, source := "" } }

/-- The first edge of an edge list (a dummy edge for the empty list). -/
def headEdge : List ReactionEdge → ReactionEdge
  | [] => mkSbmlForward "" "" false "" ""
  | e :: _ => e

/-- Concrete instantiation of C2 on both pipelines: the first edge of
each example response has its source among the emitted node ids. -/
theorem C2_witness :
    (headEdge (translate_kgml_to_graph exDocAB false).edges
        ∈ (translate_kgml_to_graph exDocAB false).edges ∧
      (headEdge (translate_kgml_to_graph exDocAB false).edges).source
        ∈ (translate_kgml_to_graph exDocAB false).nodes.map (fun n => n.id)) ∧
    (build_metabolic_graph_from_sbml place0 (some exRootSbml) = .ok exRespSbml ∧
      headEdge exRespSbml.edges ∈ exRespSbml.edges ∧
      (headEdge exRespSbml.edges).source ∈ exRespSbml.nodes.map (fun n => n.id)) :=
  ⟨⟨by decide,
    (C2_theorem.1 exDocAB false
      (headEdge (translate_kgml_to_graph exDocAB false).edges) (by decide)).1⟩,
   ⟨by decide, by decide,
    (C2_theorem.2 place0 (some exRootSbml) exRespSbml (by decide)
      (headEdge exRespSbml.edges) (by decide)).1⟩⟩

/-- Concrete instantiation of C3 (amended): the example SBML translation
succeeds and its node ids are pairwise distinct. -/
theorem C3_witness :
    build_metabolic_graph_from_sbml place0 (some exRootSbml) = .ok exRespSbml ∧
    ((exRespSbml.nodes).map (fun n => n.id)).Nodup :=
  ⟨by decide, C3_theorem.2.1 place0 (some exRootSbml) exRespSbml (by decide)⟩

/-- Concrete instantiation of C5: the example reversible reaction R1
between compounds 1 and 2 yields exactly the two expected edges. -/
theorem C5_witness :
    exDocAB.reactions = [exReactionAB] ∧
    "1" ∈ kgmlNodeIds exDocAB false ∧ "2" ∈ kgmlNodeIds exDocAB false ∧
    (translate_kgml_to_graph exDocAB false).edges.map
        (fun e => (e.id, e.source, e.target, e.reversible))
      = [(reaction_edge_id "R1" "1" "2", "1", "2", true),
         (reaction_edge_id ("R1" ++ "_rev") "2" "1", "2", "1", true)] :=
  ⟨by decide, by decide, by decide,
   C5_theorem exDocAB false exReactionAB "R1" "1" "2" (by decide) (by decide) (by decide)
     (by decide) (by decide) (by decide) (by decide) (by decide) (by decide)⟩

/-- Concrete instantiation of C7: the example SBML document has species
and edges, and the translation returns a response. -/
theorem C7_witness :
    (sbmlSpeciesAssoc exRootSbml ≠ [] ∧
      sbmlEdges exRootSbml (sbmlSpeciesAssoc exRootSbml) ≠ []) ∧
    (∃ resp, build_metabolic_graph_from_sbml place0 (some exRootSbml) = .ok resp) :=
  ⟨by decide,
   ((C7_theorem place0 (some exRootSbml)).2 exRootSbml rfl).2.2.mpr (by decide)⟩

/-- Concrete instantiation of C8: the example document has more than one
compound node and its scale factor is bounded by 5. -/
theorem C8_witness :
    1 < (kgmlCompoundEntries exDocAB).length ∧
    kgmlScale (kgmlCompoundEntries exDocAB) ≤ 5 :=
  ⟨by decide, (C8_theorem exDocAB (by decide)).1⟩

/-- Concrete instantiation of C10: the first edge of the example SBML
response has an empty enzyme list. -/
theorem C10_witness :
    build_metabolic_graph_from_sbml place0 (some exRootSbml) = .ok exRespSbml ∧
    headEdge exRespSbml.edges ∈ exRespSbml.edges ∧
    (headEdge exRespSbml.edges).enzymes = [] :=
  ⟨by decide, by decide,
   (C10_theorem place0 (some exRootSbml) exRespSbml (by decide)).2
     (headEdge exRespSbml.edges) (by decide)⟩

end MetPath
